import Mathlib

/-!
Verification model of the session/streaming chat management subsystem of the
perplexity-vscode-pro VSCode extension.  The definitions below are a shallow
embedding of the `ChatManager` class (interfaces `ChatSession`, `ChatMessage`,
type `SearchMode`, and the public operations `createNewSession`, `sendMessage`,
`getCurrentSession`, `getSession`, `getAllSessions`, `switchToSession`,
`deleteSession`, `clearAllSessions`, together with the private helpers
`getSystemMessage`, `prepareMessagesForAPI`, `generateSessionTitle`,
`loadSessions`, `saveSessions`).

Modelling conventions:
* TypeScript string-union types (`SearchMode`, message roles) are plain
  `String`s, matching the JavaScript runtime representation.
* `Date` values are modelled as `Nat` (milliseconds since the epoch); the
  `new Date()` calls inside the manager become explicit `now` parameters.
* `uuidv4()` results become explicit `String` parameters of the operations.
* The `Map<string, ChatSession>` is a `List ChatSession` in insertion order,
  keyed by `session.id` (which is the only key ever used by the source);
  `mapSet` reproduces `Map.set` (replace in place, else append) and
  `List.filter` reproduces `Map.delete`.
* `vscode.ExtensionContext.globalState` is the `persisted` field of
  `ManagerState`: `saveSessions` writes it, `loadSessions` reads it.  The
  stored blob is a list of `RawSession` records whose fields are `Option`s,
  reflecting that the loader treats the blob as untyped `any[]` data (a field
  that JSON serialization would drop is `none`).
* `this.eventEmitter.fire(x)` calls are collected, in order, into a
  `List (Option ChatSession)` of observed snapshots.
* `async`/`await` does not appear: each operation is modelled as an atomic
  state transformer; the delta stream consumed by `sendMessage` is passed as
  an explicit list of chunks followed by an optional mid-stream failure.
* JavaScript truthiness on strings ([] and objects are always truthy, ""
  is falsy) is modelled by explicit `= ""` / `≠ ""` tests.
-/

/-- Conversation message, mirroring the `ChatMessage` interface of the source
(`id`, `role`, `content`, `timestamp`, optional `citations`, `mode`,
`streaming`).  Roles are the strings `"user"`, `"assistant"`, `"system"`;
optional TypeScript fields are `Option`s (`none` = the field is absent). -/
structure ChatMessage where
  id : String
  role : String
  content : String
  timestamp : Nat
  citations : Option (List String)
  mode : Option String
  streaming : Option Bool
deriving DecidableEq, Repr

/-- Conversation session, mirroring the `ChatSession` interface of the source
(`id`, `title`, `messages`, `createdAt`, `updatedAt`, `mode`). -/
structure ChatSession where
  id : String
  title : String
  messages : List ChatMessage
  createdAt : Nat
  updatedAt : Nat
  mode : String
deriving DecidableEq, Repr

/-- Serialized message as stored in `globalState`: every field is optional
because `loadSessions` treats the blob as untyped data.  String-valued fields
carry JavaScript truthiness via `Option String` (`none` = absent). -/
structure RawMessage where
  id : Option String
  role : Option String
  content : Option String
  timestamp : Option Nat
  citations : Option (List String)
  mode : Option String
  streaming : Option Bool
deriving DecidableEq, Repr

/-- Serialized session as stored in `globalState` under the key
`perplexityChat.sessions`. -/
structure RawSession where
  id : Option String
  title : Option String
  messages : Option (List RawMessage)
  createdAt : Option Nat
  updatedAt : Option Nat
  mode : Option String
deriving DecidableEq, Repr

/-- Whole manager state: the private fields `sessions` and `currentSessionId`
of `ChatManager`, plus the `globalState` blob the manager persists into. -/
structure ManagerState where
  sessions : List ChatSession
  currentSessionId : Option String
  persisted : List RawSession
deriving DecidableEq, Repr

/-- JavaScript truthiness of an optional string value: absent and `""` are
falsy, every other string is truthy. -/
def truthyStr : Option String → Bool
  | none => false
  | some s => s ≠ ""

/-- JavaScript `a || b` for strings: `""` falls back to the default. -/
def jsOrStr (s dflt : String) : String := if s = "" then dflt else s

/-- JavaScript `a || b` where `a` is an optional (possibly absent) string. -/
def jsOrOptStr (s : Option String) (dflt : String) : String :=
  match s with
  | none => dflt
  | some t => jsOrStr t dflt

/-- Membership test used by `mapSet` (`Map.has` on the id key). -/
def hasId : List ChatSession → String → Bool
  | [], _ => false
  | x :: xs, sid => x.id == sid || hasId xs sid

/-- Model of `Map.set(session.id, session)` for a `Map` iterated in insertion
order: replace the entry with the same id in place, otherwise append. -/
def mapSet (l : List ChatSession) (sess : ChatSession) : List ChatSession :=
  if hasId l sess.id then l.map (fun x => if x.id == sess.id then sess else x)
  else l ++ [sess]

/-- Model of `Map.get(sid)` on the insertion-ordered session list. -/
def findS : List ChatSession → String → Option ChatSession
  | [], _ => none
  | x :: xs, sid => if x.id = sid then some x else findS xs sid

/-- Stable insertion of a session into a descending-sorted list: the new
entry goes after every earlier entry that is at least as recent, reproducing
for ties the stable order of `Array.prototype.sort` under the comparator
`(a, b) => b.updatedAt.getTime() - a.updatedAt.getTime()`. -/
def insertDesc (x : ChatSession) : List ChatSession → List ChatSession
  | [] => [x]
  | y :: ys => if x.updatedAt ≤ y.updatedAt then y :: insertDesc x ys else x :: y :: ys

/-- `getAllSessions()`: all sessions ordered by `updatedAt` descending.
ECMA-262 requires the sort to be stable, which for a consistent comparator
determines the result uniquely; stable insertion sort realizes it. -/
def getAllSessionsL (l : List ChatSession) : List ChatSession :=
  l.foldl (fun acc x => insertDesc x acc) []

/-- Number of messages whose `streaming` flag is exactly `true`. -/
def streamingCount (msgs : List ChatMessage) : Nat :=
  msgs.countP (fun m => m.streaming == some true)

/-- Whitespace class of the JavaScript regex `\s` restricted to the ASCII
whitespace characters that actually occur in chat text (space, tab, CR, LF);
the full Unicode class only differs on exotic code points. -/
def isWS (c : Char) : Bool := c == ' ' || c == '\t' || c == '\n' || c == '\r'

/-- Strip leading and trailing whitespace from a character list. -/
def trimChars (l : List Char) : List Char :=
  ((l.dropWhile isWS).reverse.dropWhile isWS).reverse

/-- Model of JavaScript `String.prototype.trim`. -/
def jsTrim (s : String) : String := ⟨trimChars s.data⟩

/-- Maximal runs of non-whitespace characters, separators dropped. -/
def wordRunsAux : List Char → List Char → List (List Char)
  | [], acc => if acc = [] then [] else [acc.reverse]
  | c :: cs, acc =>
    if isWS c then
      if acc = [] then wordRunsAux cs [] else acc.reverse :: wordRunsAux cs []
    else wordRunsAux cs (c :: acc)

/-- Words of a character list (maximal non-whitespace runs, in order). -/
def wordRuns (l : List Char) : List (List Char) := wordRunsAux l []

/-- Model of JavaScript `s.split(/\s+/)` for a string `s` without leading or
trailing whitespace (the only way the source uses it, right after `trim()`):
the empty string yields `[""]`, any other trimmed string yields its words. -/
def jsSplitWS (s : String) : List String :=
  if s.data = [] then [""] else (wordRuns s.data).map (fun w => ⟨w⟩)

/-- Words of an arbitrary string, as the specification counts them: the list
of maximal whitespace-separated words of `s` (empty for blank strings). -/
def specWords (s : String) : List String := (wordRuns (trimChars s.data)).map (fun w => ⟨w⟩)

/-- Join words with single spaces, modelling `Array.prototype.join(' ')`. -/
def joinSpace : List String → String
  | [] => ""
  | [w] => w
  | w :: ws => w ++ " " ++ joinSpace ws

/-- `generateSessionTitle(firstMessage)`: split the trimmed message on
whitespace runs; five or fewer words return the original message unchanged,
otherwise the first five words joined by spaces followed by `"..."`. -/
def generateSessionTitle (firstMessage : String) : String :=
  let words := jsSplitWS (jsTrim firstMessage)
  if words.length ≤ 5 then firstMessage
  else joinSpace (words.take 5) ++ "..."

/-- `getSystemMessage(mode)`: the fixed per-mode system preamble, or `none`
for a mode outside the table (`systemMessages[mode] || null`). -/
def getSystemMessage (mode : String) : Option String :=
  if mode = "general" then
    some "You are a helpful AI assistant. Provide accurate, concise, and well-structured responses."
  else if mode = "debug" then
    some "You are an expert code debugger. Help identify issues, explain problems clearly, and suggest specific fixes."
  else if mode = "explain" then
    some "You are a code explanation expert. Break down code into understandable parts and explain concepts clearly."
  else if mode = "optimize" then
    some "You are a code optimization expert. Focus on performance improvements, best practices, and cleaner code structure."
  else if mode = "test" then
    some "You are a testing expert. Generate comprehensive, well-structured unit tests with good coverage."
  else if mode = "research" then
    some "You are a research assistant. Provide thorough, well-cited information with reliable sources."
  else none

/-- Model of `Array.from(new Set(citations))`: deduplicate keeping the first
occurrence of every element, order preserved. -/
def jsSetDedup (l : List String) : List String :=
  l.foldl (fun acc x => if acc.contains x then acc else acc ++ [x]) []

/-- Message validity filter of `saveSessions`: the id/content/timestamp type
checks always hold for in-memory messages, so the only real condition is that
the role is one of the three admitted strings. -/
def validForSave (m : ChatMessage) : Bool :=
  m.role == "user" || m.role == "assistant" || m.role == "system"

/-- Serialization of one in-memory message into the stored blob (the message
object is stored as-is; JSON drops absent optional fields, kept as `none`). -/
def serializeMessage (m : ChatMessage) : RawMessage :=
  { id := some m.id
    role := some m.role
    content := some m.content
    timestamp := some m.timestamp
    citations := m.citations
    mode := m.mode
    streaming := m.streaming }

/-- Body of the `saveSessions` loop for one session: skipped entirely when the
map key is falsy (`!id`); otherwise messages failing `validForSave` are
dropped and the `|| 'Untitled'` / `|| 'general'` fallbacks are applied. -/
def serializeSession (sess : ChatSession) : Option RawSession :=
  if sess.id = "" then none
  else some
    { id := some sess.id
      title := some (jsOrStr sess.title "Untitled")
      messages := some ((sess.messages.filter validForSave).map serializeMessage)
      createdAt := some sess.createdAt
      updatedAt := some sess.updatedAt
      mode := some (jsOrStr sess.mode "general") }

/-- `saveSessions` core: serialize every session of the map, in order. -/
def serializeSessions (l : List ChatSession) : List RawSession :=
  l.filterMap serializeSession

/-- `saveSessions()`: overwrite the persisted blob from the in-memory map.
The surrounding `try`/`catch` only logs, so no failure path is modelled. -/
def saveSessions (s : ManagerState) : ManagerState :=
  { s with persisted := serializeSessions s.sessions }

/-- Truthiness filter of the `loadSessions` message loop:
`msg && msg.id && msg.role && msg.content`. -/
def rawMsgKept (rm : RawMessage) : Bool :=
  truthyStr rm.id && truthyStr rm.role && truthyStr rm.content

/-- Reconstruction of one stored message by `loadSessions`: missing timestamp
becomes `now` (`new Date()`), missing citations become `[]`, missing mode
becomes `"general"`, `streaming` is coerced with `Boolean(...)`. -/
def loadMessage (now : Nat) (rm : RawMessage) : ChatMessage :=
  { id := rm.id.getD ""
    role := rm.role.getD ""
    content := rm.content.getD ""
    timestamp := rm.timestamp.getD now
    citations := some (rm.citations.getD [])
    mode := some (jsOrOptStr rm.mode "general")
    streaming := some (rm.streaming.getD false) }

/-- Reconstruction of one stored session by `loadSessions`: entries with a
falsy id are dropped (`sessionData && sessionData.id`); fields are repaired
with defaults exactly as in the source. -/
def loadSession (now : Nat) (rs : RawSession) : Option ChatSession :=
  if truthyStr rs.id then
    some
      { id := rs.id.getD ""
        title := jsOrOptStr rs.title "Untitled"
        messages := ((rs.messages.getD []).filter rawMsgKept).map (loadMessage now)
        createdAt := rs.createdAt.getD now
        updatedAt := rs.updatedAt.getD now
        mode := jsOrOptStr rs.mode "general" }
  else none

/-- `loadSessions` core: `sessions.clear()` followed by `sessions.set(...)`
for every well-formed stored entry, in order. -/
def parseSessions (now : Nat) (raws : List RawSession) : List ChatSession :=
  raws.foldl
    (fun acc rs =>
      match loadSession now rs with
      | some sess => mapSet acc sess
      | none => acc)
    []

/-- `loadSessions()`: rebuild the session map from the persisted blob, then
point `currentSessionId` at the most recently updated session if any exists
(left unchanged otherwise).  `loadSessions` fires no event. -/
def loadSessionsOp (now : Nat) (s : ManagerState) : ManagerState :=
  let sessions := parseSessions now s.persisted
  let s1 := { s with sessions := sessions }
  match (getAllSessionsL s1.sessions).head? with
  | some h => { s1 with currentSessionId := some h.id }
  | none => s1

/-- `getCurrentSession()` / `getSession(id)` return value (the `{...session}`
spread produces a value equal to the stored session; the sharing structure of
that shallow copy is studied separately in the `RefModel` namespace). -/
def getCurrentSession (s : ManagerState) : Option ChatSession :=
  match s.currentSessionId with
  | none => none
  | some cid => findS s.sessions cid

/-- `createNewSession(title?, mode)`: build the session, insert the per-mode
system message if the mode has one, set the session as current, persist, and
fire the new session.  `sid` and `msgId` stand for the two `uuidv4()` calls,
`now` for `new Date()`. -/
def createNewSession (sid msgId : String) (title : Option String) (mode : String)
    (now : Nat) (s : ManagerState) : ManagerState × List (Option ChatSession) :=
  let base : ChatSession :=
    { id := sid
      title := jsOrOptStr title "New Chat"
      messages := []
      createdAt := now
      updatedAt := now
      mode := mode }
  let session :=
    match getSystemMessage mode with
    | some sm =>
      { base with
          messages :=
            [{ id := msgId, role := "system", content := sm, timestamp := now,
               citations := none, mode := none, streaming := none }] }
    | none => base
  let s1 := saveSessions
    { s with sessions := mapSet s.sessions session, currentSessionId := some sid }
  (s1, [some session])

/-- `switchToSession(sessionId)`: throws on a falsy id, throws when the id is
unknown, otherwise repairs missing fields with defaults, sets the session as
current and fires the repaired view.  `fallbackId` stands for the `uuidv4()`
used when the stored id is falsy; the `instanceof Date` and `Array.isArray`
repairs are identities here because the model is well-typed. -/
def switchToSession (fallbackId : String) (sid : String) (s : ManagerState) :
    ManagerState × List (Option ChatSession) × Except String Unit :=
  if sid = "" then (s, [], .error "Session ID must be a non-empty string")
  else
    match findS s.sessions sid with
    | none => (s, [], .error ("Session not found: " ++ sid))
    | some sess =>
      let valid : ChatSession :=
        { id := jsOrStr sess.id fallbackId
          title := jsOrStr sess.title "Untitled"
          messages := sess.messages
          createdAt := sess.createdAt
          updatedAt := sess.updatedAt
          mode := jsOrStr sess.mode "general" }
      ({ s with currentSessionId := some valid.id }, [some valid], .ok ())

/-- `deleteSession(sessionId)`: silently return on a falsy or unknown id;
otherwise remove the session, promote the most recently updated remaining
session when the deleted one was current, persist, and fire the (copied)
current session or `null`. -/
def deleteSession (sid : String) (s : ManagerState) :
    ManagerState × List (Option ChatSession) :=
  if sid = "" || (findS s.sessions sid).isNone then (s, [])
  else
    let s1 := { s with sessions := s.sessions.filter (fun x => x.id != sid) }
    let s2 :=
      if s.currentSessionId = some sid then
        { s1 with
            currentSessionId :=
              match (getAllSessionsL s1.sessions).head? with
              | some h => some h.id
              | none => none }
      else s1
    let s3 := saveSessions s2
    (s3, [match getCurrentSession s3 with
          | some c => some c
          | none => none])

/-- `clearAllSessions()`: empty the map, clear the current pointer, persist,
fire `null`. -/
def clearAllSessions (s : ManagerState) : ManagerState × List (Option ChatSession) :=
  (saveSessions { s with sessions := [], currentSessionId := none }, [none])

/-- Incremental payload of one streamed choice (`delta` of the response). -/
structure Delta where
  content : Option String
deriving DecidableEq, Repr

/-- One streamed choice (`chunk.choices[0]` is the only one consulted). -/
structure Choice where
  delta : Option Delta
deriving DecidableEq, Repr

/-- One chunk of the server-sent stream consumed by `sendMessage`:
`choices` plus the optional top-level `citations` array. -/
structure Chunk where
  choices : List Choice
  citations : Option (List String)
deriving DecidableEq, Repr

/-- Content a chunk contributes: the loop appends `delta.content` only when
`chunk.choices && chunk.choices[0]` and `delta?.content` are truthy, which
collapses to "the extracted content is nonempty" (absent pieces give `""`). -/
def chunkContent (c : Chunk) : String :=
  match c.choices.head? with
  | some ch =>
    match ch.delta with
    | some d => d.content.getD ""
    | none => ""
  | none => ""

/-- Concatenation of all delta contents of a stream, in receipt order. -/
def concatContents : List Chunk → String
  | [] => ""
  | c :: rest => chunkContent c ++ concatContents rest

/-- Result of folding the stream inside `sendMessage`: the accumulated
`fullContent`, the accumulated (not yet deduplicated) `citations`, and the
successive values of the placeholder's content at each `fire` triggered by a
content-carrying delta. -/
structure StreamOut where
  fullContent : String
  citations : List String
  fires : List String
deriving DecidableEq, Repr

/-- The `for await` loop of `sendMessage`: per chunk, append a truthy content
to `fullContent` and record a fire, and push the chunk's citations (if the
field is present) onto the accumulator. -/
def streamFold : List Chunk → String → List String → StreamOut
  | [], fc, cits => { fullContent := fc, citations := cits, fires := [] }
  | c :: rest, fc, cits =>
    let d := chunkContent c
    let fc' := if d = "" then fc else fc ++ d
    let firedHere : List String := if d = "" then [] else [fc ++ d]
    let cits' :=
      match c.citations with
      | some cs => cits ++ cs
      | none => cits
    let out := streamFold rest fc' cits'
    { out with fires := firedHere ++ out.fires }

/-- Wire-format message sent to the API (`PerplexityMessage`). -/
structure APIMessage where
  role : String
  content : String
deriving DecidableEq, Repr

/-- `prepareMessagesForAPI(messages, mode)`: drop streaming placeholders,
blank contents and foreign roles, and project to the wire format. -/
def prepareMessagesForAPI (messages : List ChatMessage) : List APIMessage :=
  (messages.filter
      (fun m =>
        !(m.streaming.getD false) &&
        (jsTrim m.content != "") &&
        (m.role == "user" || m.role == "assistant" || m.role == "system"))).map
    (fun m => { role := m.role, content := m.content })

deriving instance DecidableEq for Except

/-- Outcome of one `sendMessage` call: the state left behind, the ordered
list of fired snapshots, and the value returned or the error thrown. -/
structure SendResult where
  state : ManagerState
  fired : List (Option ChatSession)
  result : Except String ChatMessage
deriving DecidableEq, Repr

/-- The streaming-placeholder assistant message at a given content value. -/
def placeholderMsg (pid : String) (now : Nat) (content : String) : ChatMessage :=
  { id := pid, role := "assistant", content := content, timestamp := now,
    citations := none, mode := none, streaming := some true }

/-- `sendMessage(content, mode)`.  Parameters model the environment of the
call: `uid`/`pid`/`emid` are the `uuidv4()` ids of the user message, the
assistant placeholder and the error message; `nsid`/`smid` are the ids used if
a session must first be created; `now`/`now2` are the `new Date()` readings at
entry and at finalization; `chunks` is the delta stream actually delivered by
the transport and `streamErr` an error it raises after those chunks (`none`
for a clean end of stream).  The body follows the source line by line:
implicit session creation, user-message append, title derivation on the first
user message, placeholder append and fire, per-delta accumulation and fires,
then either finalization (citations deduplicated, `streaming := false`,
persist, fire, return) or the catch block (placeholder removed by id, error
message appended, fire, rethrow — without persisting). -/
def sendMessage (uid pid emid nsid smid : String) (now now2 : Nat)
    (content mode : String) (chunks : List Chunk) (streamErr : Option String)
    (s : ManagerState) : SendResult :=
  let created :=
    match s.currentSessionId with
    | none =>
      let r := createNewSession nsid smid (some "New Chat") mode now s
      (r.1, r.2, nsid)
    | some c => (s, ([] : List (Option ChatSession)), c)
  let s0 := created.1
  let fired0 := created.2.1
  match findS s0.sessions created.2.2 with
  | none => { state := s0, fired := fired0, result := .error "No active session found" }
  | some sess =>
    let userMsg : ChatMessage :=
      { id := uid, role := "user", content := content, timestamp := now,
        citations := none, mode := some mode, streaming := none }
    let sess1 :=
      { sess with messages := sess.messages ++ [userMsg], updatedAt := now, mode := mode }
    let sess2 :=
      if (sess1.messages.filter (fun m => m.role == "user")).length = 1 then
        { sess1 with title := generateSessionTitle content }
      else sess1
    let base := sess2.messages
    let phSess : String → ChatSession :=
      fun c => { sess2 with messages := base ++ [placeholderMsg pid now c] }
    let out := streamFold chunks "" []
    let midFires : List (Option ChatSession) := out.fires.map (fun c => some (phSess c))
    match streamErr with
    | some e =>
      let removed :=
        (base ++ [placeholderMsg pid now out.fullContent]).filter (fun m => m.id != pid)
      let errMsg : ChatMessage :=
        { id := emid, role := "assistant", content := "Error: " ++ e, timestamp := now,
          citations := none, mode := none, streaming := none }
      let sessE := { sess2 with messages := removed ++ [errMsg] }
      let sE := { s0 with sessions := mapSet s0.sessions sessE }
      { state := sE
        fired := fired0 ++ [some (phSess "")] ++ midFires ++ [some sessE]
        result := .error e }
    | none =>
      let finalMsg : ChatMessage :=
        { id := pid, role := "assistant", content := out.fullContent, timestamp := now,
          citations := if out.citations.isEmpty then none else some (jsSetDedup out.citations),
          mode := none, streaming := some false }
      let sessF := { sess2 with messages := base ++ [finalMsg], updatedAt := now2 }
      let sF := saveSessions { s0 with sessions := mapSet s0.sessions sessF }
      { state := sF
        fired := fired0 ++ [some (phSess "")] ++ midFires ++ [some sessF]
        result := .ok finalMsg }

/-- One invocation of a public `ChatManager` operation, with every piece of
its environment (fresh ids, clock readings, the delivered stream) explicit. -/
inductive Op where
  | createNewSession (sid msgId : String) (title : Option String) (mode : String) (now : Nat)
  | sendMessage (uid pid emid nsid smid : String) (now now2 : Nat)
      (content mode : String) (chunks : List Chunk) (streamErr : Option String)
  | switchToSession (fallbackId sid : String)
  | deleteSession (sid : String)
  | clearAllSessions
  | load (now : Nat)

/-- Successor state and fired snapshots of one operation. -/
def stepRun (op : Op) (s : ManagerState) : ManagerState × List (Option ChatSession) :=
  match op with
  | .createNewSession sid msgId title mode now => createNewSession sid msgId title mode now s
  | .sendMessage uid pid emid nsid smid now now2 content mode chunks err =>
    let r := sendMessage uid pid emid nsid smid now now2 content mode chunks err s
    (r.state, r.fired)
  | .switchToSession fb sid =>
    let r := switchToSession fb sid s
    (r.1, r.2.1)
  | .deleteSession sid => deleteSession sid s
  | .clearAllSessions => clearAllSessions s
  | .load now => (loadSessionsOp now s, [])

/-- The manager's state at construction time: no sessions, no current
session, nothing persisted yet. -/
def initialState : ManagerState := { sessions := [], currentSessionId := none, persisted := [] }

/-- States reachable from a fresh manager by running public operations in
sequence (each operation executed atomically, as in the source's
single-threaded execution model). -/
inductive Reachable : ManagerState → Prop where
  | init : Reachable initialState
  | next {s : ManagerState} (op : Op) : Reachable s → Reachable (stepRun op s).1

/-- Citations carried by a stream, concatenated in receipt order (what the
`citations.push(...chunk.citations)` accumulation collects). -/
def collectCitations : List Chunk → List String
  | [] => []
  | c :: rest => c.citations.getD [] ++ collectCitations rest

/-- One string is an initial segment of another (specification-side notion of
"monotonic growth, never replacing earlier content"). -/
def strIsPre (a b : String) : Prop := ∃ t, a ++ t = b

/-- No message of the list is currently streaming. -/
def Quiescent (msgs : List ChatMessage) : Prop := ∀ m ∈ msgs, m.streaming ≠ some true

/-- No stored message of the raw session claims to be streaming. -/
def RawQuiescent (rs : RawSession) : Prop :=
  ∀ rm ∈ rs.messages.getD [], rm.streaming ≠ some true

/-- Boundary invariant between public operations: every in-memory session and
every persisted session is quiescent. -/
def BInv (s : ManagerState) : Prop :=
  (∀ sess ∈ s.sessions, Quiescent sess.messages) ∧ (∀ rs ∈ s.persisted, RawQuiescent rs)

/-- Identity-relevant projection of a message for the round-trip property:
id, role, content and timestamp. -/
def msgKey (m : ChatMessage) : String × String × String × Nat :=
  (m.id, m.role, m.content, m.timestamp)

/-- Projection of a session for the round-trip property: id, title, mode, the
two timestamps, and the projected message sequence. -/
def sessKey (sess : ChatSession) :
    String × String × String × Nat × Nat × List (String × String × String × Nat) :=
  (sess.id, sess.title, sess.mode, sess.createdAt, sess.updatedAt, sess.messages.map msgKey)

namespace RefModel

/-!
Reference-semantics model of the read accessors.  In JavaScript an object
value is a reference; `{ ...session }` builds a fresh object whose fields are
copied, so the `messages` field of the copy is the same array reference as the
original's.  To make that observable we give sessions an explicit `Nat`
reference into a heap of message arrays and model `messages.push` as a heap
write.  Only the accessors `getCurrentSession`, `getSession` and
`getAllSessions` are modelled here; the rest of the development uses plain
values because the manager itself never relies on sharing across operations.
-/

/-- Session object with its `messages` array held behind a heap reference. -/
structure SessionObj where
  id : String
  title : String
  messagesRef : Nat
  createdAt : Nat
  updatedAt : Nat
  mode : String
deriving DecidableEq, Repr

/-- Store: the heap of message arrays, the session map, the current id. -/
structure Store where
  heap : List (List ChatMessage)
  sessions : List SessionObj
  currentSessionId : Option String
deriving DecidableEq, Repr

/-- Dereference a messages array. -/
def readArray (st : Store) (r : Nat) : List ChatMessage := st.heap.getD r []

/-- `arr.push(m)` through a reference: a heap write, visible to every holder
of the same reference. -/
def pushThrough (st : Store) (r : Nat) (m : ChatMessage) : Store :=
  { st with heap := st.heap.set r (st.heap.getD r [] ++ [m]) }

/-- `{ ...session }`: a fresh object with every field copied; the `messages`
field copies the array reference, not the array. -/
def spreadCopy (sess : SessionObj) : SessionObj :=
  { id := sess.id, title := sess.title, messagesRef := sess.messagesRef,
    createdAt := sess.createdAt, updatedAt := sess.updatedAt, mode := sess.mode }

/-- `Map.get` on the session map. -/
def findObj (l : List SessionObj) (sid : String) : Option SessionObj :=
  l.find? (fun x => x.id == sid)

/-- `getSession(sessionId)`: the spread copy of the stored object, if any. -/
def getSession (st : Store) (sid : String) : Option SessionObj :=
  (findObj st.sessions sid).map spreadCopy

/-- `getCurrentSession()`: the spread copy of the current session, if any. -/
def getCurrentSession (st : Store) : Option SessionObj :=
  match st.currentSessionId with
  | none => none
  | some cid => (findObj st.sessions cid).map spreadCopy

/-- Stable descending insertion for session objects (same order as the
value-level model). -/
def insertObjDesc (x : SessionObj) : List SessionObj → List SessionObj
  | [] => [x]
  | y :: ys => if x.updatedAt ≤ y.updatedAt then y :: insertObjDesc x ys else x :: y :: ys

/-- `getAllSessions()`: a new array holding the stored session objects
themselves (no copy of any kind is taken). -/
def getAllSessions (st : Store) : List SessionObj :=
  st.sessions.foldl (fun acc x => insertObjDesc x acc) []

/-- Messages of a session as observed through the store's heap. -/
def sessionMessages (st : Store) (sess : SessionObj) : List ChatMessage :=
  readArray st sess.messagesRef

end RefModel

/-- Session record built by `createNewSession` before insertion (title
fallback applied, per-mode system message inserted). -/
def newSessionOf (sid msgId : String) (title : Option String) (mode : String)
    (now : Nat) : ChatSession :=
  let base : ChatSession :=
    { id := sid, title := jsOrOptStr title "New Chat", messages := [],
      createdAt := now, updatedAt := now, mode := mode }
  match getSystemMessage mode with
  | some sm =>
    { base with
        messages :=
          [{ id := msgId, role := "system", content := sm, timestamp := now,
             citations := none, mode := none, streaming := none }] }
  | none => base

/-- The user message appended by `sendMessage`. -/
def userMessageOf (uid : String) (now : Nat) (content mode : String) : ChatMessage :=
  { id := uid, role := "user", content := content, timestamp := now,
    citations := none, mode := some mode, streaming := none }

/-- The finalized assistant message produced by a clean end of stream. -/
def finalAssistantOf (pid : String) (now : Nat) (chunks : List Chunk) : ChatMessage :=
  { id := pid, role := "assistant", content := (streamFold chunks "" []).fullContent,
    timestamp := now,
    citations := if (streamFold chunks "" []).citations.isEmpty then none
                 else some (jsSetDedup (streamFold chunks "" []).citations),
    mode := none, streaming := some false }

/-- The assistant-role error message appended by the catch block. -/
def errorAssistantOf (emid : String) (now : Nat) (e : String) : ChatMessage :=
  { id := emid, role := "assistant", content := "Error: " ++ e, timestamp := now,
    citations := none, mode := none, streaming := none }

/-- The session right after the user message is appended and the title
possibly rederived (the value `session` holds before the placeholder push). -/
def sess2Of (sess : ChatSession) (uid : String) (now : Nat) (content mode : String) :
    ChatSession :=
  let sess1 : ChatSession :=
    { sess with messages := sess.messages ++ [userMessageOf uid now content mode],
                updatedAt := now, mode := mode }
  if (sess1.messages.filter (fun m => m.role == "user")).length = 1 then
    { sess1 with title := generateSessionTitle content }
  else sess1

/-- The session as observed at a fire while the placeholder holds content
`c` (the post-placeholder and per-delta notification snapshots). -/
def phObsOf (sess : ChatSession) (uid pid : String) (now : Nat) (content mode : String)
    (c : String) : ChatSession :=
  { sess2Of sess uid now content mode with
      messages := (sess2Of sess uid now content mode).messages ++ [placeholderMsg pid now c] }

/-- The session left behind by a successful `sendMessage`. -/
def okSessionOf (sess : ChatSession) (uid pid : String) (now now2 : Nat)
    (content mode : String) (chunks : List Chunk) : ChatSession :=
  { sess2Of sess uid now content mode with
      messages := (sess2Of sess uid now content mode).messages ++ [finalAssistantOf pid now chunks],
      updatedAt := now2 }

/-- The session left behind by the catch block of `sendMessage`. -/
def errSessionOf (sess : ChatSession) (uid pid emid : String) (now : Nat)
    (content mode : String) (chunks : List Chunk) (e : String) : ChatSession :=
  { sess2Of sess uid now content mode with
      messages :=
        (((sess2Of sess uid now content mode).messages
            ++ [placeholderMsg pid now (streamFold chunks "" []).fullContent]).filter
          (fun m => m.id != pid)) ++ [errorAssistantOf emid now e] }

/-- A fired notification is admissible when any session it carries has at
most one `streaming = true` message. -/
def ObsOK (o : Option ChatSession) : Prop :=
  ∀ sess, o = some sess → streamingCount sess.messages ≤ 1

/-- Sample quiescent session used by concrete witnesses. -/
def sampleSession : ChatSession :=
  { id := "s1", title := "T", messages := [], createdAt := 0, updatedAt := 0, mode := "general" }

/-- Sample manager state whose current session is `sampleSession`. -/
def sampleState : ManagerState :=
  { sessions := [sampleSession], currentSessionId := some "s1", persisted := [] }

/-- Session that already holds an in-flight streaming placeholder (the state
another `sendMessage` call would observe mid-stream). -/
def busySession : ChatSession :=
  { id := "s1", title := "T",
    messages :=
      [{ id := "m0", role := "user", content := "first question", timestamp := 0,
         citations := none, mode := some "general", streaming := none },
       { id := "ph0", role := "assistant", content := "partial", timestamp := 0,
         citations := none, mode := none, streaming := some true }],
    createdAt := 0, updatedAt := 0, mode := "general" }

/-- Manager state whose current session is `busySession`. -/
def busyState : ManagerState :=
  { sessions := [busySession], currentSessionId := some "s1", persisted := [] }

/-- Convenience constructor for a pure-content stream chunk. -/
def contentChunk (t : String) : Chunk :=
  { choices := [{ delta := some { content := some t } }], citations := none }

/-- The three-delta stream of the specification's accumulation example. -/
def helloChunks : List Chunk :=
  [contentChunk "Hel", contentChunk "lo", contentChunk " world"]

/-- The citation stream of the specification's deduplication example. -/
def citChunks : List Chunk :=
  [{ choices := [{ delta := some { content := some "x" } }],
     citations := some ["a.com", "b.com"] },
   { choices := [{ delta := some { content := some "y" } }],
     citations := some ["a.com"] }]

/-- C7: for every message, `generateSessionTitle` returns the first five
whitespace-separated words joined by single spaces followed by `"..."` when
the message has more than five words, and the message unchanged when it has
five or fewer. -/
theorem title_derivation (s : String) :
    (5 < (specWords s).length →
      generateSessionTitle s = joinSpace ((specWords s).take 5) ++ "...") ∧
    ((specWords s).length ≤ 5 → generateSessionTitle s = s) := by
  have hdata : (jsTrim s).data = trimChars s.data := rfl
  by_cases hnil : trimChars s.data = []
  · have hw : specWords s = [] := by
      simp [specWords, hnil, wordRuns, wordRunsAux]
    constructor
    · intro h
      rw [hw] at h
      simp at h
    · intro _
      simp [generateSessionTitle, jsSplitWS, hdata, hnil]
  · have hw : jsSplitWS (jsTrim s) = specWords s := by
      simp [jsSplitWS, hdata, hnil, specWords]
    constructor
    · intro h
      have hn : ¬ (specWords s).length ≤ 5 := by omega
      simp [generateSessionTitle, hw, hn]
    · intro h
      simp [generateSessionTitle, hw, h]

/-- Witness for C7 at the two example messages of the specification. -/
theorem title_derivation_witness :
    generateSessionTitle "Fix this bug in my sorting algorithm please" = "Fix this bug in my..." ∧
    generateSessionTitle "Hi" = "Hi" := by
  constructor
  · rw [(title_derivation "Fix this bug in my sorting algorithm please").1 (by decide)]
    decide
  · exact (title_derivation "Hi").2 (by decide)

/-- C10: deleting an id that is not in the session map (the empty string
included) is a silent no-op — state, persisted blob and notifications are all
unchanged and nothing is thrown — whereas `switchToSession` throws on the
same id. -/
theorem delete_unknown_id_noop (s : ManagerState) (fallbackId sid : String)
    (h : findS s.sessions sid = none) :
    deleteSession sid s = (s, []) ∧
    ∃ e, switchToSession fallbackId sid s = (s, [], Except.error e) := by
  constructor
  · simp [deleteSession, h]
  · by_cases hs : sid = ""
    · exact ⟨"Session ID must be a non-empty string", by simp [switchToSession, hs]⟩
    · exact ⟨"Session not found: " ++ sid, by simp [switchToSession, hs, h]⟩

/-- Witness for C10 on a concrete store and the unknown id `"nope"`. -/
theorem delete_unknown_id_noop_witness :
    findS initialState.sessions "nope" = none ∧
    deleteSession "nope" initialState = (initialState, []) ∧
    ∃ e, switchToSession "fb" "nope" initialState = (initialState, [], Except.error e) := by
  refine ⟨by decide, ?_⟩
  exact delete_unknown_id_noop initialState "fb" "nope" (by decide)

/-- Every string is an initial segment of itself extended. -/
theorem strIsPre_append (a t : String) : strIsPre a (a ++ t) := ⟨t, rfl⟩

/-- Initial segments compose. -/
theorem strIsPre_trans {a b c : String} (h1 : strIsPre a b) (h2 : strIsPre b c) :
    strIsPre a c := by
  obtain ⟨t1, ht1⟩ := h1
  obtain ⟨t2, ht2⟩ := h2
  exact ⟨t1 ++ t2, by rw [← String.append_assoc, ht1, ht2]⟩

/-- A session found under an id carries that id. -/
theorem findS_id {l : List ChatSession} {sid : String} {sess : ChatSession}
    (h : findS l sid = some sess) : sess.id = sid := by
  induction l with
  | nil => simp [findS] at h
  | cons a as ih =>
    by_cases ha : a.id = sid
    · simp [findS, ha] at h
      rw [← h]
      exact ha
    · simp [findS, ha] at h
      exact ih h

/-- A session found in a list is a member of it. -/
theorem findS_mem {l : List ChatSession} {sid : String} {sess : ChatSession}
    (h : findS l sid = some sess) : sess ∈ l := by
  induction l with
  | nil => simp [findS] at h
  | cons a as ih =>
    by_cases ha : a.id = sid
    · simp [findS, ha] at h
      simp [h]
    · simp [findS, ha] at h
      exact List.mem_cons_of_mem a (ih h)

/-- A successful lookup implies the membership test used by `mapSet`. -/
theorem hasId_of_findS {l : List ChatSession} {sid : String} {sess : ChatSession}
    (h : findS l sid = some sess) : hasId l sid = true := by
  induction l with
  | nil => simp [findS] at h
  | cons a as ih =>
    by_cases ha : a.id = sid
    · simp [hasId, ha]
    · simp [findS, ha] at h
      simp [hasId, ih h]

/-- Lookup after an in-place replacement finds the replacement. -/
theorem findS_map_replace (u : ChatSession) (l : List ChatSession)
    (h : hasId l u.id = true) :
    findS (l.map (fun x => if x.id == u.id then u else x)) u.id = some u := by
  induction l with
  | nil => simp [hasId] at h
  | cons a as ih =>
    by_cases ha : a.id = u.id
    · simp [findS, ha]
    · have h' : hasId as u.id = true := by
        simp only [hasId, Bool.or_eq_true] at h
        rcases h with h | h
        · exact absurd (by simpa using h) ha
        · exact h
      simpa [findS, ha] using ih h'

/-- `Map.set` followed by `Map.get` at the same key yields the new value. -/
theorem findS_mapSet (l : List ChatSession) (u : ChatSession)
    (h : hasId l u.id = true) : findS (mapSet l u) u.id = some u := by
  unfold mapSet
  rw [if_pos h]
  exact findS_map_replace u l h

/-- Accumulated content of the stream loop: the final `fullContent` is the
starting value extended by every delta content in receipt order. -/
theorem streamFold_fullContent (chunks : List Chunk) :
    ∀ (fc : String) (cits : List String),
      (streamFold chunks fc cits).fullContent = fc ++ concatContents chunks := by
  induction chunks with
  | nil =>
    intro fc cits
    simp [streamFold, concatContents, String.append_empty]
  | cons c rest ih =>
    intro fc cits
    by_cases hd : chunkContent c = ""
    · simp [streamFold, hd, concatContents, ih, String.empty_append]
    · simp [streamFold, hd, concatContents, ih, String.append_assoc]

/-- Accumulated citations of the stream loop: starting value extended by
every chunk's citation array in receipt order. -/
theorem streamFold_citations (chunks : List Chunk) :
    ∀ (fc : String) (cits : List String),
      (streamFold chunks fc cits).citations = cits ++ collectCitations chunks := by
  induction chunks with
  | nil =>
    intro fc cits
    simp [streamFold, collectCitations]
  | cons c rest ih =>
    intro fc cits
    cases hc : c.citations with
    | none => simp [streamFold, hc, collectCitations, ih]
    | some cs => simp [streamFold, hc, collectCitations, ih]

/-- The placeholder contents observed at the per-delta fires grow
monotonically and are all initial segments of the final content. -/
theorem streamFold_fires (chunks : List Chunk) :
    ∀ (fc : String) (cits : List String),
      (∀ x ∈ (streamFold chunks fc cits).fires,
          strIsPre fc x ∧ strIsPre x (fc ++ concatContents chunks)) ∧
      List.Chain' strIsPre (streamFold chunks fc cits).fires := by
  induction chunks with
  | nil =>
    intro fc cits
    simp [streamFold]
  | cons c rest ih =>
    intro fc cits
    by_cases hd : chunkContent c = ""
    · have hcc : chunkContent c ++ concatContents rest = concatContents rest := by
        rw [hd, String.empty_append]
      have h := ih fc (match c.citations with
        | some cs => cits ++ cs
        | none => cits)
      constructor
      · intro x hx
        simp only [streamFold, hd, if_pos, List.nil_append] at hx
        have hx' := h.1 x (by simpa [hd] using hx)
        simpa [concatContents, hcc] using hx'
      · have h2 := h.2
        simpa [streamFold, hd] using h2
    · have h := ih (fc ++ chunkContent c) (match c.citations with
        | some cs => cits ++ cs
        | none => cits)
      constructor
      · intro x hx
        simp only [streamFold, hd, if_neg, List.cons_append, List.nil_append] at hx
        rcases (by simpa [hd] using hx : x = fc ++ chunkContent c ∨ _) with hx1 | hx2
        · subst hx1
          refine ⟨strIsPre_append fc (chunkContent c), ?_⟩
          simp only [concatContents]
          rw [← String.append_assoc]
          exact strIsPre_append _ _
        · have hh := h.1 x hx2
          refine ⟨strIsPre_trans (strIsPre_append fc (chunkContent c)) hh.1, ?_⟩
          have := hh.2
          simpa [concatContents, String.append_assoc] using this
      · have hchain := h.2
        have hhead : ∀ y ∈ (streamFold rest (fc ++ chunkContent c) (match c.citations with
            | some cs => cits ++ cs
            | none => cits)).fires.head?, strIsPre (fc ++ chunkContent c) y := by
          intro y hy
          exact (h.1 y (List.mem_of_mem_head? hy)).1
        have : List.Chain' strIsPre ((fc ++ chunkContent c) ::
            (streamFold rest (fc ++ chunkContent c) (match c.citations with
              | some cs => cits ++ cs
              | none => cits)).fires) :=
          (List.chain'_cons').mpr ⟨hhead, hchain⟩
        simpa [streamFold, hd] using this

/-- Appending a fresh entry is found when nothing earlier matches. -/
theorem findS_append_single (l : List ChatSession) (u : ChatSession)
    (h : hasId l u.id = false) : findS (l ++ [u]) u.id = some u := by
  induction l with
  | nil => simp [findS]
  | cons a as ih =>
    simp only [hasId, Bool.or_eq_false_iff] at h
    have ha : ¬ a.id = u.id := by simpa using h.1
    simpa [findS, ha] using ih h.2

/-- `Map.set` followed by `Map.get` at the inserted key, unconditionally. -/
theorem findS_mapSet_self (l : List ChatSession) (u : ChatSession) :
    findS (mapSet l u) u.id = some u := by
  by_cases h : hasId l u.id = true
  · unfold mapSet
    rw [if_pos h]
    exact findS_map_replace u l h
  · unfold mapSet
    rw [if_neg h]
    exact findS_append_single l u (by simpa using h)

/-- The created session carries the requested id. -/
theorem newSessionOf_id (sid msgId : String) (title : Option String) (mode : String)
    (now : Nat) : (newSessionOf sid msgId title mode now).id = sid := by
  unfold newSessionOf
  cases getSystemMessage mode <;> rfl

/-- The created session's messages are the optional system message only. -/
theorem newSessionOf_quiescent (sid msgId : String) (title : Option String) (mode : String)
    (now : Nat) : Quiescent (newSessionOf sid msgId title mode now).messages := by
  unfold newSessionOf Quiescent
  cases getSystemMessage mode <;> simp

/-- The pre-placeholder session: same id, user message appended. -/
theorem sess2Of_id (sess : ChatSession) (uid : String) (now : Nat) (content mode : String) :
    (sess2Of sess uid now content mode).id = sess.id := by
  unfold sess2Of
  dsimp only
  split <;> rfl

/-- Messages of the pre-placeholder session. -/
theorem sess2Of_messages (sess : ChatSession) (uid : String) (now : Nat)
    (content mode : String) :
    (sess2Of sess uid now content mode).messages =
      sess.messages ++ [userMessageOf uid now content mode] := by
  unfold sess2Of
  dsimp only
  split <;> rfl

/-- `createNewSession` written with the explicit created session. -/
theorem createNewSession_eq (sid msgId : String) (title : Option String) (mode : String)
    (now : Nat) (s : ManagerState) :
    createNewSession sid msgId title mode now s =
      (saveSessions
        { s with sessions := mapSet s.sessions (newSessionOf sid msgId title mode now),
                 currentSessionId := some sid },
       [some (newSessionOf sid msgId title mode now)]) := by
  simp only [createNewSession, newSessionOf]

/-- Clean-completion equation for `sendMessage` from an existing current
session: final state, fired snapshots and returned message, explicitly. -/
theorem sendMessage_ok_eq (s : ManagerState) (cid : String) (sess : ChatSession)
    (uid pid emid nsid smid : String) (now now2 : Nat) (content mode : String)
    (chunks : List Chunk)
    (hcur : s.currentSessionId = some cid)
    (hfind : findS s.sessions cid = some sess) :
    sendMessage uid pid emid nsid smid now now2 content mode chunks none s =
      { state := saveSessions
          { s with sessions :=
              mapSet s.sessions (okSessionOf sess uid pid now now2 content mode chunks) }
        fired := [some (phObsOf sess uid pid now content mode "")] ++
            ((streamFold chunks "" []).fires.map
              (fun c => some (phObsOf sess uid pid now content mode c))) ++
            [some (okSessionOf sess uid pid now now2 content mode chunks)]
        result := Except.ok (finalAssistantOf pid now chunks) } := by
  simp only [sendMessage, hcur, hfind, okSessionOf, phObsOf, sess2Of, userMessageOf,
    finalAssistantOf, placeholderMsg, List.nil_append, List.append_assoc]

/-- Mid-stream-failure equation for `sendMessage` from an existing current
session: the placeholder is filtered out by id, the error message appended,
nothing persisted, and the error rethrown. -/
theorem sendMessage_err_eq (s : ManagerState) (cid : String) (sess : ChatSession)
    (uid pid emid nsid smid : String) (now now2 : Nat) (content mode : String)
    (chunks : List Chunk) (e : String)
    (hcur : s.currentSessionId = some cid)
    (hfind : findS s.sessions cid = some sess) :
    sendMessage uid pid emid nsid smid now now2 content mode chunks (some e) s =
      { state :=
          { s with sessions :=
              mapSet s.sessions (errSessionOf sess uid pid emid now content mode chunks e) }
        fired := [some (phObsOf sess uid pid now content mode "")] ++
            ((streamFold chunks "" []).fires.map
              (fun c => some (phObsOf sess uid pid now content mode c))) ++
            [some (errSessionOf sess uid pid emid now content mode chunks e)]
        result := Except.error e } := by
  simp only [sendMessage, hcur, hfind, errSessionOf, phObsOf, sess2Of, userMessageOf,
    errorAssistantOf, placeholderMsg, List.nil_append, List.append_assoc]

/-- With no current session, `sendMessage` first creates one and then behaves
exactly like a send on the created state, with the creation fire prepended. -/
theorem sendMessage_none_eq (s : ManagerState)
    (uid pid emid nsid smid : String) (now now2 : Nat) (content mode : String)
    (chunks : List Chunk) (err : Option String)
    (hcur : s.currentSessionId = none) :
    sendMessage uid pid emid nsid smid now now2 content mode chunks err s =
      { state := (sendMessage uid pid emid nsid smid now now2 content mode chunks err
            (createNewSession nsid smid (some "New Chat") mode now s).1).state
        fired := (createNewSession nsid smid (some "New Chat") mode now s).2 ++
            (sendMessage uid pid emid nsid smid now now2 content mode chunks err
              (createNewSession nsid smid (some "New Chat") mode now s).1).fired
        result := (sendMessage uid pid emid nsid smid now now2 content mode chunks err
            (createNewSession nsid smid (some "New Chat") mode now s).1).result } := by
  have hc1 : (createNewSession nsid smid (some "New Chat") mode now s).1.currentSessionId
      = some nsid := by
    rw [createNewSession_eq]
    rfl
  have hfind2 : findS (mapSet s.sessions (newSessionOf nsid smid (some "New Chat") mode now))
      nsid = some (newSessionOf nsid smid (some "New Chat") mode now) := by
    have h := findS_mapSet_self s.sessions (newSessionOf nsid smid (some "New Chat") mode now)
    rw [newSessionOf_id] at h
    exact h
  have hfind' : findS (createNewSession nsid smid (some "New Chat") mode now s).1.sessions nsid
      = some (newSessionOf nsid smid (some "New Chat") mode now) := by
    rw [createNewSession_eq]
    exact hfind2
  cases err with
  | none =>
    rw [sendMessage_ok_eq ((createNewSession nsid smid (some "New Chat") mode now s).1) nsid
      (newSessionOf nsid smid (some "New Chat") mode now) uid pid emid nsid smid now now2
      content mode chunks hc1 hfind']
    simp only [sendMessage, hcur, createNewSession_eq, saveSessions, hfind2, List.nil_append,
      okSessionOf, phObsOf, sess2Of, userMessageOf, finalAssistantOf, placeholderMsg,
      List.append_assoc]
  | some e =>
    rw [sendMessage_err_eq ((createNewSession nsid smid (some "New Chat") mode now s).1) nsid
      (newSessionOf nsid smid (some "New Chat") mode now) uid pid emid nsid smid now now2
      content mode chunks e hc1 hfind']
    simp only [sendMessage, hcur, createNewSession_eq, saveSessions, hfind2, List.nil_append,
      errSessionOf, phObsOf, sess2Of, userMessageOf, errorAssistantOf, placeholderMsg,
      List.append_assoc]

/-- Stale-pointer case: a current id that resolves to no session makes
`sendMessage` throw without touching anything. -/
theorem sendMessage_stale_eq (s : ManagerState) (cid : String)
    (uid pid emid nsid smid : String) (now now2 : Nat) (content mode : String)
    (chunks : List Chunk) (err : Option String)
    (hcur : s.currentSessionId = some cid)
    (hfind : findS s.sessions cid = none) :
    sendMessage uid pid emid nsid smid now now2 content mode chunks err s =
      { state := s, fired := [], result := Except.error "No active session found" } := by
  simp only [sendMessage, hcur, hfind]

/-- Fold kernel of `jsSetDedup`: keeps the accumulator duplicate-free and
collects exactly the elements seen so far. -/
theorem jsSetDedup_go (l : List String) :
    ∀ acc : List String, acc.Nodup →
      (List.foldl (fun acc x => if acc.contains x then acc else acc ++ [x]) acc l).Nodup ∧
      ∀ x, x ∈ List.foldl (fun acc x => if acc.contains x then acc else acc ++ [x]) acc l ↔
        x ∈ acc ∨ x ∈ l := by
  induction l with
  | nil =>
    intro acc hacc
    exact ⟨by simpa using hacc, fun x => by simp⟩
  | cons a as ih =>
    intro acc hacc
    by_cases hmem : acc.contains a = true
    · have hin : a ∈ acc := by simpa using hmem
      constructor
      · rw [List.foldl_cons]
        rw [if_pos hmem]
        exact (ih acc hacc).1
      · intro x
        rw [List.foldl_cons]
        rw [if_pos hmem]
        rw [(ih acc hacc).2 x]
        constructor
        · rintro (h | h)
          · exact Or.inl h
          · exact Or.inr (List.mem_cons_of_mem a h)
        · rintro (h | h)
          · exact Or.inl h
          · rcases List.mem_cons.mp h with rfl | h
            · exact Or.inl hin
            · exact Or.inr h
    · have hnin : a ∉ acc := by
        intro hcon
        exact hmem (by simpa using hcon)
      have hnodup : (acc ++ [a]).Nodup := by
        rw [List.nodup_append]
        refine ⟨hacc, List.nodup_singleton a, ?_⟩
        intro x hx hxa
        rw [List.mem_singleton] at hxa
        subst hxa
        exact hnin hx
      constructor
      · rw [List.foldl_cons]
        rw [if_neg hmem]
        exact (ih (acc ++ [a]) hnodup).1
      · intro x
        rw [List.foldl_cons]
        rw [if_neg hmem]
        rw [(ih (acc ++ [a]) hnodup).2 x]
        simp only [List.mem_append, List.mem_cons, List.not_mem_nil, or_false]
        tauto

/-- `Array.from(new Set(l))` is duplicate-free and has the members of `l`. -/
theorem jsSetDedup_spec (l : List String) :
    (jsSetDedup l).Nodup ∧ ∀ x, x ∈ jsSetDedup l ↔ x ∈ l := by
  have h := jsSetDedup_go l [] List.nodup_nil
  refine ⟨h.1, fun x => ?_⟩
  constructor
  · intro hx
    rcases (h.2 x).mp hx with hc | hc
    · exact absurd hc (List.not_mem_nil x)
    · exact hc
  · intro hx
    exact (h.2 x).mpr (Or.inr hx)

/-- C5: with a clean end of stream, `sendMessage` returns the finalized
assistant message whose content is the concatenation of all delta contents in
receipt order, with `streaming = false`; that message is stored as the last
message of the current session; and the placeholder contents observed at the
per-delta fires grow monotonically (each an initial segment of the next and
of the final content — content is appended, never replaced). -/
theorem streaming_accumulation (s : ManagerState) (cid : String) (sess : ChatSession)
    (uid pid emid nsid smid : String) (now now2 : Nat) (content mode : String)
    (chunks : List Chunk)
    (hcur : s.currentSessionId = some cid)
    (hfind : findS s.sessions cid = some sess) :
    (∃ m, (sendMessage uid pid emid nsid smid now now2 content mode chunks none s).result
        = Except.ok m ∧
      m.content = concatContents chunks ∧
      m.streaming = some false ∧
      ∃ sessF, findS (sendMessage uid pid emid nsid smid now now2 content mode chunks
          none s).state.sessions cid = some sessF ∧
        sessF.messages.getLast? = some m) ∧
    List.Chain' strIsPre ((streamFold chunks "" []).fires) ∧
    ∀ x ∈ (streamFold chunks "" []).fires, strIsPre x (concatContents chunks) := by
  have heq := sendMessage_ok_eq s cid sess uid pid emid nsid smid now now2 content mode
    chunks hcur hfind
  have hfull : (streamFold chunks "" []).fullContent = concatContents chunks := by
    rw [streamFold_fullContent chunks "" []]
    exact String.empty_append _
  have hfires := streamFold_fires chunks "" []
  refine ⟨⟨finalAssistantOf pid now chunks, ?_, ?_, rfl, ?_⟩, hfires.2, ?_⟩
  · rw [heq]
  · simpa [finalAssistantOf] using hfull
  · refine ⟨okSessionOf sess uid pid now now2 content mode chunks, ?_, ?_⟩
    · rw [heq]
      show findS (mapSet s.sessions (okSessionOf sess uid pid now now2 content mode chunks))
        cid = some (okSessionOf sess uid pid now now2 content mode chunks)
      have hidok : (okSessionOf sess uid pid now now2 content mode chunks).id = sess.id := by
        simp [okSessionOf, sess2Of_id]
      have h := findS_mapSet_self s.sessions (okSessionOf sess uid pid now now2 content mode chunks)
      rw [hidok, findS_id hfind] at h
      exact h
    · show ((sess2Of sess uid now content mode).messages ++
          [finalAssistantOf pid now chunks]).getLast? = some (finalAssistantOf pid now chunks)
      exact List.getLast?_concat _
  · intro x hx
    have h := (hfires.1 x hx).2
    rwa [String.empty_append] at h

/-- Witness for C5 on the specification's `["Hel", "lo", " world"]` stream. -/
theorem streaming_accumulation_witness :
    concatContents helloChunks = "Hello world" ∧
    ∃ m, (sendMessage "u1" "p1" "e1" "n1" "m1" 1 2 "hi" "general" helloChunks none
        sampleState).result = Except.ok m ∧
      m.content = concatContents helloChunks ∧ m.streaming = some false := by
  refine ⟨by decide, ?_⟩
  obtain ⟨⟨m, h1, h2, h3, _⟩, _, _⟩ := streaming_accumulation sampleState "s1" sampleSession
    "u1" "p1" "e1" "n1" "m1" 1 2 "hi" "general" helloChunks rfl (by decide)
  exact ⟨m, h1, h2, h3⟩

/-- C8: the finalized assistant message's citations are the accumulated
citation URLs deduplicated with first occurrences kept (no duplicates, same
members), and the field is absent (`none`) when no citations were received. -/
theorem citation_dedup_on_finalize (s : ManagerState) (cid : String) (sess : ChatSession)
    (uid pid emid nsid smid : String) (now now2 : Nat) (content mode : String)
    (chunks : List Chunk)
    (hcur : s.currentSessionId = some cid)
    (hfind : findS s.sessions cid = some sess) :
    ∃ m, (sendMessage uid pid emid nsid smid now now2 content mode chunks none s).result
        = Except.ok m ∧
      m.citations = (if collectCitations chunks = [] then none
                     else some (jsSetDedup (collectCitations chunks))) ∧
      (jsSetDedup (collectCitations chunks)).Nodup ∧
      (∀ x, x ∈ jsSetDedup (collectCitations chunks) ↔ x ∈ collectCitations chunks) := by
  have heq := sendMessage_ok_eq s cid sess uid pid emid nsid smid now now2 content mode
    chunks hcur hfind
  have hcit : (streamFold chunks "" []).citations = collectCitations chunks := by
    rw [streamFold_citations chunks "" []]
    exact List.nil_append _
  refine ⟨finalAssistantOf pid now chunks, by rw [heq], ?_,
    (jsSetDedup_spec _).1, (jsSetDedup_spec _).2⟩
  show (if (streamFold chunks "" []).citations.isEmpty then none
        else some (jsSetDedup (streamFold chunks "" []).citations)) =
      (if collectCitations chunks = [] then none
       else some (jsSetDedup (collectCitations chunks)))
  rw [hcit]
  by_cases hc : collectCitations chunks = []
  · simp [hc]
  · simp [List.isEmpty_iff, hc]

/-- Witness for C8 on the specification's citation stream. -/
theorem citation_dedup_on_finalize_witness :
    collectCitations citChunks = ["a.com", "b.com", "a.com"] ∧
    ∃ m, (sendMessage "u1" "p1" "e1" "n1" "m1" 1 2 "hi" "general" citChunks none
        sampleState).result = Except.ok m ∧
      m.citations = some ["a.com", "b.com"] := by
  refine ⟨by decide, ?_⟩
  obtain ⟨m, h1, h2, _, _⟩ := citation_dedup_on_finalize sampleState "s1" sampleSession
    "u1" "p1" "e1" "n1" "m1" 1 2 "hi" "general" citChunks rfl (by decide)
  refine ⟨m, h1, ?_⟩
  rw [h2]
  decide

/-- The error-path session carries the original id. -/
theorem errSessionOf_id (sess : ChatSession) (uid pid emid : String) (now : Nat)
    (content mode : String) (chunks : List Chunk) (e : String) :
    (errSessionOf sess uid pid emid now content mode chunks e).id = sess.id := by
  simp [errSessionOf, sess2Of_id]

/-- With a placeholder id fresh for the session, the catch-block filter
removes exactly the placeholder: prior messages and the user message stay. -/
theorem errSessionOf_messages (sess : ChatSession) (uid pid emid : String) (now : Nat)
    (content mode : String) (chunks : List Chunk) (e : String)
    (hfresh : ∀ m ∈ sess.messages, m.id ≠ pid) (huid : uid ≠ pid) :
    (errSessionOf sess uid pid emid now content mode chunks e).messages =
      (sess.messages ++ [userMessageOf uid now content mode])
        ++ [errorAssistantOf emid now e] := by
  show (((sess2Of sess uid now content mode).messages
      ++ [placeholderMsg pid now (streamFold chunks "" []).fullContent]).filter
        (fun m => m.id != pid)) ++ [errorAssistantOf emid now e] = _
  rw [sess2Of_messages, List.filter_append, List.filter_append]
  have h1 : sess.messages.filter (fun m => m.id != pid) = sess.messages :=
    List.filter_eq_self.mpr (fun m hm => by simpa using hfresh m hm)
  have h2 : [userMessageOf uid now content mode].filter (fun m => m.id != pid)
      = [userMessageOf uid now content mode] := by
    simp [userMessageOf, huid]
  have h3 : [placeholderMsg pid now (streamFold chunks "" []).fullContent].filter
      (fun m => m.id != pid) = [] := by
    simp [placeholderMsg]
  rw [h1, h2, h3]
  simp

/-- C1: a mid-stream transport failure (after any number of deltas) is
recovered: the caller receives the original error, the partial streaming
placeholder is removed from the session, exactly one assistant message with
error text is appended after the untouched user message, the prior messages
persist unchanged, and no message of the final session is streaming. -/
theorem sendMessage_error_recovery (s : ManagerState) (cid : String) (sess : ChatSession)
    (uid pid emid nsid smid : String) (now now2 : Nat) (content mode : String)
    (chunks : List Chunk) (e : String)
    (hcur : s.currentSessionId = some cid)
    (hfind : findS s.sessions cid = some sess)
    (hfresh : ∀ m ∈ sess.messages, m.id ≠ pid)
    (huid : uid ≠ pid)
    (hq : Quiescent sess.messages) :
    (sendMessage uid pid emid nsid smid now now2 content mode chunks (some e) s).result
        = Except.error e ∧
    ∃ sessE, findS (sendMessage uid pid emid nsid smid now now2 content mode chunks
        (some e) s).state.sessions cid = some sessE ∧
      sessE.messages = (sess.messages ++ [userMessageOf uid now content mode])
          ++ [errorAssistantOf emid now e] ∧
      (userMessageOf uid now content mode).content = content ∧
      (userMessageOf uid now content mode).role = "user" ∧
      (errorAssistantOf emid now e).content = "Error: " ++ e ∧
      (errorAssistantOf emid now e).role = "assistant" ∧
      Quiescent sessE.messages := by
  have heq := sendMessage_err_eq s cid sess uid pid emid nsid smid now now2 content mode
    chunks e hcur hfind
  have hmsgs := errSessionOf_messages sess uid pid emid now content mode chunks e hfresh huid
  constructor
  · rw [heq]
  · refine ⟨errSessionOf sess uid pid emid now content mode chunks e, ?_, hmsgs,
      rfl, rfl, rfl, rfl, ?_⟩
    · rw [heq]
      show findS (mapSet s.sessions (errSessionOf sess uid pid emid now content mode chunks e))
        cid = some (errSessionOf sess uid pid emid now content mode chunks e)
      have h := findS_mapSet_self s.sessions (errSessionOf sess uid pid emid now content mode chunks e)
      rw [errSessionOf_id, findS_id hfind] at h
      exact h
    · rw [hmsgs]
      intro m hm
      rcases List.mem_append.mp hm with hm1 | hm1
      · rcases List.mem_append.mp hm1 with hm2 | hm2
        · exact hq m hm2
        · rw [List.mem_singleton] at hm2
          subst hm2
          simp [userMessageOf]
      · rw [List.mem_singleton] at hm1
        subst hm1
        simp [errorAssistantOf]

/-- Witness for C1: `sendMessage("explain this", "explain")` with the stream
failing with `ServerError` after one delta `"Par"`. -/
theorem sendMessage_error_recovery_witness :
    (sendMessage "u1" "p1" "e1" "n1" "m1" 1 2 "explain this" "explain"
        [contentChunk "Par"] (some "ServerError") sampleState).result
      = Except.error "ServerError" ∧
    ∃ sessE, findS (sendMessage "u1" "p1" "e1" "n1" "m1" 1 2 "explain this" "explain"
        [contentChunk "Par"] (some "ServerError") sampleState).state.sessions "s1"
          = some sessE ∧
      sessE.messages = (sampleSession.messages ++ [userMessageOf "u1" 1 "explain this" "explain"])
          ++ [errorAssistantOf "e1" 1 "ServerError"] ∧
      Quiescent sessE.messages := by
  obtain ⟨h1, sessE, h2, h3, _, _, _, _, h8⟩ := sendMessage_error_recovery sampleState "s1"
    sampleSession "u1" "p1" "e1" "n1" "m1" 1 2 "explain this" "explain"
    [contentChunk "Par"] "ServerError" rfl (by decide) (by decide) (by decide)
    (by intro m hm; simp [sampleSession] at hm)
  exact ⟨h1, sessE, h2, h3, h8⟩

/-- Streaming-message count distributes over append. -/
theorem streamingCount_append (a b : List ChatMessage) :
    streamingCount (a ++ b) = streamingCount a + streamingCount b :=
  List.countP_append _ a b

/-- C4 counterexample: called on a state whose current session already holds
a `streaming = true` message, `sendMessage` is not rejected — it completes
normally (`isOk`), and the snapshot fired after the placeholder append holds
two `streaming = true` messages, i.e. a second streaming placeholder was
appended; so the claimed `BusyError` guard does not exist in the code. -/
theorem sendMessage_busy_not_rejected :
    streamingCount busySession.messages = 1 ∧
    ((sendMessage "u2" "p2" "e2" "n2" "m2" 3 4 "second" "general" [contentChunk "Hi"] none
        busyState).result.isOk = true) ∧
    ((sendMessage "u2" "p2" "e2" "n2" "m2" 3 4 "second" "general" [contentChunk "Hi"] none
        busyState).fired.any
      (fun o => match o with
        | some sess => decide (streamingCount sess.messages = 2)
        | none => false) = true) := by
  decide

/-- C4 (amended): `sendMessage` has no in-flight guard.  Called while the
current session already holds a `streaming = true` message, it proceeds with
no rejection of any kind, the snapshot fired after the placeholder append
holds one more streaming message than the session had (the second streaming
placeholder), and on clean completion only its own placeholder is finalized,
leaving the pre-existing streaming message still set in the stored session. -/
theorem sendMessage_no_busy_guard (s : ManagerState) (cid : String) (sess : ChatSession)
    (uid pid emid nsid smid : String) (now now2 : Nat) (content mode : String)
    (chunks : List Chunk)
    (hcur : s.currentSessionId = some cid)
    (hfind : findS s.sessions cid = some sess)
    (hbusy : 1 ≤ streamingCount sess.messages) :
    (∃ m, (sendMessage uid pid emid nsid smid now now2 content mode chunks none s).result
        = Except.ok m) ∧
    (sendMessage uid pid emid nsid smid now now2 content mode chunks none s).fired.head?
        = some (some (phObsOf sess uid pid now content mode "")) ∧
    streamingCount (phObsOf sess uid pid now content mode "").messages
        = streamingCount sess.messages + 1 ∧
    ∃ sessF, findS (sendMessage uid pid emid nsid smid now now2 content mode chunks
        none s).state.sessions cid = some sessF ∧
      streamingCount sessF.messages = streamingCount sess.messages ∧
      1 ≤ streamingCount sessF.messages := by
  have heq := sendMessage_ok_eq s cid sess uid pid emid nsid smid now now2 content mode
    chunks hcur hfind
  have hsess2 : streamingCount (sess2Of sess uid now content mode).messages
      = streamingCount sess.messages := by
    rw [sess2Of_messages, streamingCount_append]
    simp [streamingCount, userMessageOf]
  refine ⟨⟨finalAssistantOf pid now chunks, by rw [heq]⟩, ?_, ?_, ?_⟩
  · rw [heq]
    simp
  · show streamingCount ((sess2Of sess uid now content mode).messages
        ++ [placeholderMsg pid now ""]) = _
    rw [streamingCount_append, hsess2]
    simp [streamingCount, placeholderMsg]
  · refine ⟨okSessionOf sess uid pid now now2 content mode chunks, ?_, ?_, ?_⟩
    · rw [heq]
      show findS (mapSet s.sessions (okSessionOf sess uid pid now now2 content mode chunks))
        cid = some (okSessionOf sess uid pid now now2 content mode chunks)
      have h := findS_mapSet_self s.sessions (okSessionOf sess uid pid now now2 content mode chunks)
      have hidok : (okSessionOf sess uid pid now now2 content mode chunks).id = sess.id := by
        simp [okSessionOf, sess2Of_id]
      rw [hidok, findS_id hfind] at h
      exact h
    · show streamingCount ((sess2Of sess uid now content mode).messages
          ++ [finalAssistantOf pid now chunks]) = _
      rw [streamingCount_append, hsess2]
      simp [streamingCount, finalAssistantOf]
    · show 1 ≤ streamingCount ((sess2Of sess uid now content mode).messages
          ++ [finalAssistantOf pid now chunks])
      rw [streamingCount_append, hsess2]
      omega

/-- Witness for the amended C4 on a concrete busy state. -/
theorem sendMessage_no_busy_guard_witness :
    1 ≤ streamingCount busySession.messages ∧
    ∃ m, (sendMessage "u2" "p2" "e2" "n2" "m2" 3 4 "second" "general" [contentChunk "Hi"]
        none busyState).result = Except.ok m := by
  refine ⟨by decide, ?_⟩
  obtain ⟨⟨m, h1⟩, _, _, _⟩ := sendMessage_no_busy_guard busyState "s1" busySession "u2" "p2"
    "e2" "n2" "m2" 3 4 "second" "general" [contentChunk "Hi"] rfl (by decide) (by decide)
  exact ⟨m, h1⟩

/-- Members of a stable insertion. -/
theorem mem_insertDesc (x z : ChatSession) (l : List ChatSession) :
    z ∈ insertDesc x l ↔ z ∈ l ∨ z = x := by
  induction l with
  | nil => simp [insertDesc]
  | cons y ys ih =>
    by_cases h : x.updatedAt ≤ y.updatedAt
    · rw [insertDesc, if_pos h]
      rw [List.mem_cons, ih, List.mem_cons]
      tauto
    · rw [insertDesc, if_neg h]
      simp only [List.mem_cons]
      tauto

/-- Descending sortedness predicate on session lists. -/
def SortedDesc : List ChatSession → Prop :=
  List.Pairwise (fun a b => b.updatedAt ≤ a.updatedAt)

/-- Insertion preserves descending sortedness. -/
theorem sortedDesc_insertDesc (x : ChatSession) (l : List ChatSession) (h : SortedDesc l) :
    SortedDesc (insertDesc x l) := by
  induction l with
  | nil =>
    rw [insertDesc, SortedDesc]
    exact List.pairwise_singleton _ x
  | cons y ys ih =>
    rw [SortedDesc, List.pairwise_cons] at h
    by_cases hc : x.updatedAt ≤ y.updatedAt
    · rw [insertDesc, if_pos hc, SortedDesc, List.pairwise_cons]
      constructor
      · intro z hz
        rcases (mem_insertDesc x z ys).mp hz with hz2 | rfl
        · exact h.1 z hz2
        · exact hc
      · exact ih h.2
    · rw [insertDesc, if_neg hc, SortedDesc, List.pairwise_cons]
      constructor
      · intro z hz
        rcases List.mem_cons.mp hz with rfl | hz2
        · omega
        · have := h.1 z hz2
          omega
      · rw [List.pairwise_cons]
        exact ⟨h.1, h.2⟩

/-- `getAllSessions` is descending-sorted and holds exactly the stored
sessions. -/
theorem getAllSessionsL_spec (l : List ChatSession) :
    SortedDesc (getAllSessionsL l) ∧ ∀ z, z ∈ getAllSessionsL l ↔ z ∈ l := by
  suffices h : ∀ acc, SortedDesc acc →
      SortedDesc (l.foldl (fun acc x => insertDesc x acc) acc) ∧
      ∀ z, z ∈ l.foldl (fun acc x => insertDesc x acc) acc ↔ z ∈ acc ∨ z ∈ l by
    have h2 := h [] List.Pairwise.nil
    refine ⟨h2.1, fun z => ?_⟩
    rw [getAllSessionsL]
    rw [h2.2 z]
    simp
  induction l with
  | nil =>
    intro acc hacc
    exact ⟨hacc, fun z => by simp⟩
  | cons a as ih =>
    intro acc hacc
    have h1 := ih (insertDesc a acc) (sortedDesc_insertDesc a acc hacc)
    constructor
    · rw [List.foldl_cons]
      exact h1.1
    · intro z
      rw [List.foldl_cons]
      rw [h1.2 z]
      rw [mem_insertDesc, List.mem_cons]
      tauto

/-- The head of `getAllSessions` is a stored session of maximal `updatedAt`. -/
theorem getAllSessionsL_head_max (l : List ChatSession) (p : ChatSession)
    (h : (getAllSessionsL l).head? = some p) :
    p ∈ l ∧ ∀ x ∈ l, x.updatedAt ≤ p.updatedAt := by
  obtain ⟨hs, hmem⟩ := getAllSessionsL_spec l
  cases hm : getAllSessionsL l with
  | nil =>
    rw [hm] at h
    simp at h
  | cons q rest =>
    rw [hm] at h
    simp only [List.head?_cons, Option.some.injEq] at h
    subst h
    rw [hm] at hs hmem
    rw [SortedDesc, List.pairwise_cons] at hs
    constructor
    · exact (hmem q).mp (List.mem_cons_self q rest)
    · intro x hx
      rcases List.mem_cons.mp ((hmem x).mpr hx) with rfl | hx2
      · exact Nat.le_refl _
      · exact hs.1 x hx2

/-- Removing another id does not change a lookup. -/
theorem findS_filter_ne (l : List ChatSession) (sid c : String) (h : c ≠ sid) :
    findS (l.filter (fun x => x.id != sid)) c = findS l c := by
  induction l with
  | nil => rfl
  | cons a as ih =>
    by_cases hc : a.id = c
    · have hk : (a.id != sid) = true := by
        have hne : a.id ≠ sid := by
          rw [hc]
          exact h
        simpa using hne
      rw [List.filter_cons, if_pos hk]
      show (if a.id = c then some a else findS (as.filter (fun x => x.id != sid)) c)
        = if a.id = c then some a else findS as c
      rw [ih]
    · by_cases hs : a.id = sid
      · have hk : ¬ ((a.id != sid) = true) := by simpa using hs
        rw [List.filter_cons, if_neg hk]
        show findS (as.filter (fun x => x.id != sid)) c
          = if a.id = c then some a else findS as c
        rw [if_neg hc, ih]
      · have hk : (a.id != sid) = true := by simpa using hs
        rw [List.filter_cons, if_pos hk]
        show (if a.id = c then some a else findS (as.filter (fun x => x.id != sid)) c)
          = if a.id = c then some a else findS as c
        rw [ih]

/-- C6: deleting the current session promotes a remaining session of maximal
`updatedAt` to current (or clears the pointer when none remains); deleting a
non-current session leaves the current pointer and the current session's
stored value unchanged. -/
theorem delete_promotes_most_recent (s : ManagerState) (sid : String)
    (hpresent : findS s.sessions sid ≠ none) (hsid : sid ≠ "") :
    (s.currentSessionId = some sid →
      ((s.sessions.filter (fun x => x.id != sid) = [] ∧
          (deleteSession sid s).1.currentSessionId = none) ∨
        (∃ p, p ∈ s.sessions.filter (fun x => x.id != sid) ∧
          (deleteSession sid s).1.currentSessionId = some p.id ∧
          ∀ x ∈ s.sessions.filter (fun x => x.id != sid), x.updatedAt ≤ p.updatedAt))) ∧
    (s.currentSessionId ≠ some sid →
      (deleteSession sid s).1.currentSessionId = s.currentSessionId ∧
      ∀ cid, s.currentSessionId = some cid →
        findS (deleteSession sid s).1.sessions cid = findS s.sessions cid) := by
  obtain ⟨t, ht⟩ : ∃ t, findS s.sessions sid = some t := by
    cases hv : findS s.sessions sid with
    | none => exact absurd hv hpresent
    | some t => exact ⟨t, rfl⟩
  constructor
  · intro hcur
    cases hhead : (getAllSessionsL (s.sessions.filter (fun x => x.id != sid))).head? with
    | none =>
      left
      constructor
      · have hnil : getAllSessionsL (s.sessions.filter (fun x => x.id != sid)) = [] := by
          cases hm : getAllSessionsL (s.sessions.filter (fun x => x.id != sid)) with
          | nil => rfl
          | cons q rest =>
            rw [hm] at hhead
            simp at hhead
        have hmem := (getAllSessionsL_spec (s.sessions.filter (fun x => x.id != sid))).2
        rw [List.eq_nil_iff_forall_not_mem]
        intro z hz
        have hz2 := (hmem z).mpr hz
        rw [hnil] at hz2
        simp at hz2
      · simp [deleteSession, hsid, ht, hcur, saveSessions]
        rw [hhead]
    | some hd =>
      right
      have hmax := getAllSessionsL_head_max _ hd hhead
      refine ⟨hd, hmax.1, ?_, hmax.2⟩
      simp [deleteSession, hsid, ht, hcur, saveSessions]
      rw [hhead]
  · intro hne
    have hguard : (deleteSession sid s).1 =
        saveSessions { s with sessions := s.sessions.filter (fun x => x.id != sid) } := by
      simp [deleteSession, hsid, ht, hne]
    constructor
    · rw [hguard]
      rfl
    · intro cid hcid
      have hcne : cid ≠ sid := by
        intro hcon
        exact hne (hcon ▸ hcid)
      rw [hguard]
      show findS (s.sessions.filter (fun x => x.id != sid)) cid = findS s.sessions cid
      exact findS_filter_ne s.sessions sid cid hcne

/-- Witness for C6: sessions A (updatedAt 1) and B (updatedAt 2) with B
current; deleting B promotes A; deleting the only session clears current. -/
theorem delete_promotes_most_recent_witness :
    findS (⟨[⟨"A", "tA", [], 0, 1, "general"⟩, ⟨"B", "tB", [], 0, 2, "general"⟩],
        some "B", []⟩ : ManagerState).sessions "B" ≠ none ∧
    (deleteSession "B" ⟨[⟨"A", "tA", [], 0, 1, "general"⟩, ⟨"B", "tB", [], 0, 2, "general"⟩],
        some "B", []⟩).1.currentSessionId = some "A" ∧
    (deleteSession "A" ⟨[⟨"A", "tA", [], 0, 1, "general"⟩], some "A", []⟩).1.currentSessionId
        = none ∧
    ((⟨[⟨"A", "tA", [], 0, 1, "general"⟩, ⟨"B", "tB", [], 0, 2, "general"⟩], some "B", []⟩ :
        ManagerState).currentSessionId = some "B" →
      (((⟨[⟨"A", "tA", [], 0, 1, "general"⟩, ⟨"B", "tB", [], 0, 2, "general"⟩], some "B", []⟩ :
            ManagerState).sessions.filter (fun x => x.id != "B") = [] ∧
          (deleteSession "B" ⟨[⟨"A", "tA", [], 0, 1, "general"⟩, ⟨"B", "tB", [], 0, 2,
            "general"⟩], some "B", []⟩).1.currentSessionId = none) ∨
        (∃ p, p ∈ (⟨[⟨"A", "tA", [], 0, 1, "general"⟩, ⟨"B", "tB", [], 0, 2, "general"⟩],
            some "B", []⟩ : ManagerState).sessions.filter (fun x => x.id != "B") ∧
          (deleteSession "B" ⟨[⟨"A", "tA", [], 0, 1, "general"⟩, ⟨"B", "tB", [], 0, 2,
            "general"⟩], some "B", []⟩).1.currentSessionId = some p.id ∧
          ∀ x ∈ (⟨[⟨"A", "tA", [], 0, 1, "general"⟩, ⟨"B", "tB", [], 0, 2, "general"⟩],
              some "B", []⟩ : ManagerState).sessions.filter (fun x => x.id != "B"),
            x.updatedAt ≤ p.updatedAt))) := by
  refine ⟨by decide, by decide, by decide, ?_⟩
  exact (delete_promotes_most_recent ⟨[⟨"A", "tA", [], 0, 1, "general"⟩,
    ⟨"B", "tB", [], 0, 2, "general"⟩], some "B", []⟩ "B" (by decide) (by decide)).1

/-- C3 counterexample: persist-then-load does not return an equal session
set.  A session holding a user message with content `""` (as `sendMessage`
appends verbatim) is saved with both messages, but the loader's truthiness
filter `msg && msg.id && msg.role && msg.content` silently drops the
empty-content message; the surviving message also has its absent `citations`
field normalized to `[]`.  The closed computation exhibits both. -/
theorem roundtrip_drops_blank_message :
    (parseSessions 0 (serializeSessions
        [⟨"s1", "T", [⟨"m1", "user", "hello", 0, none, none, none⟩,
          ⟨"m2", "user", "", 0, none, none, none⟩], 0, 0, "general"⟩])).map
      (fun sess => sess.messages.map (fun m => m.id)) = [["m1"]] ∧
    parseSessions 0 (serializeSessions
        [⟨"s1", "T", [⟨"m1", "user", "hello", 0, none, none, none⟩,
          ⟨"m2", "user", "", 0, none, none, none⟩], 0, 0, "general"⟩]) ≠
      [⟨"s1", "T", [⟨"m1", "user", "hello", 0, none, none, none⟩,
        ⟨"m2", "user", "", 0, none, none, none⟩], 0, 0, "general"⟩] ∧
    (parseSessions 0 (serializeSessions
        [⟨"s1", "T", [⟨"m1", "user", "hello", 0, none, none, none⟩,
          ⟨"m2", "user", "", 0, none, none, none⟩], 0, 0, "general"⟩])).map
      (fun sess => sess.messages.map (fun m => m.citations)) = [[some []]] := by
  decide

/-- A falsy-id test used by the loader, decided from a nonempty id. -/
theorem truthyStr_some {t : String} (h : t ≠ "") : truthyStr (some t) = true := by
  simpa [truthyStr] using h

/-- Loading the serialization of a well-formed session succeeds and preserves
id, title, mode, both timestamps, and every message's id, role, content and
timestamp; absent message fields normalize (citations to `[]`, mode to
`"general"`, streaming to `false`). -/
theorem loadSession_serializeSession (now : Nat) (sess : ChatSession)
    (hid : sess.id ≠ "") (htitle : sess.title ≠ "") (hmode : sess.mode ≠ "")
    (hmsg : ∀ m ∈ sess.messages, m.id ≠ "" ∧ m.content ≠ "" ∧
      (m.role = "user" ∨ m.role = "assistant" ∨ m.role = "system")) :
    ∃ rs sess', serializeSession sess = some rs ∧ loadSession now rs = some sess' ∧
      sess'.id = sess.id ∧ sessKey sess' = sessKey sess := by
  have hser : serializeSession sess = some
      { id := some sess.id, title := some (jsOrStr sess.title "Untitled"),
        messages := some ((sess.messages.filter validForSave).map serializeMessage),
        createdAt := some sess.createdAt, updatedAt := some sess.updatedAt,
        mode := some (jsOrStr sess.mode "general") } := by
    unfold serializeSession
    rw [if_neg hid]
  have hfil : sess.messages.filter validForSave = sess.messages := by
    apply List.filter_eq_self.mpr
    intro m hm
    rcases (hmsg m hm).2.2 with h | h | h <;> simp [validForSave, h]
  have hmsgfil : (sess.messages.map serializeMessage).filter rawMsgKept
      = sess.messages.map serializeMessage := by
    apply List.filter_eq_self.mpr
    intro rm hrm
    obtain ⟨m, hm, rfl⟩ := List.mem_map.mp hrm
    obtain ⟨h1, h2, h3⟩ := hmsg m hm
    have hrole : m.role ≠ "" := by
      rcases h3 with h | h | h <;> simp [h]
    simp [rawMsgKept, serializeMessage, truthyStr_some h1, truthyStr_some h2,
      truthyStr_some hrole]
  have hload : loadSession now
      { id := some sess.id, title := some (jsOrStr sess.title "Untitled"),
        messages := some ((sess.messages.filter validForSave).map serializeMessage),
        createdAt := some sess.createdAt, updatedAt := some sess.updatedAt,
        mode := some (jsOrStr sess.mode "general") } = some
      { id := sess.id,
        title := jsOrOptStr (some (jsOrStr sess.title "Untitled")) "Untitled",
        messages := (((sess.messages.filter validForSave).map serializeMessage).filter
          rawMsgKept).map (loadMessage now),
        createdAt := sess.createdAt, updatedAt := sess.updatedAt,
        mode := jsOrOptStr (some (jsOrStr sess.mode "general")) "general" } := by
    unfold loadSession
    rw [if_pos (truthyStr_some hid)]
    rfl
  refine ⟨_, _, hser, hload, rfl, ?_⟩
  have ht : jsOrOptStr (some (jsOrStr sess.title "Untitled")) "Untitled" = sess.title := by
    simp [jsOrOptStr, jsOrStr, htitle]
  have hm2 : jsOrOptStr (some (jsOrStr sess.mode "general")) "general" = sess.mode := by
    simp [jsOrOptStr, jsOrStr, hmode]
  have hmm : ((((sess.messages.filter validForSave).map serializeMessage).filter
      rawMsgKept).map (loadMessage now)).map msgKey = sess.messages.map msgKey := by
    rw [hfil, hmsgfil, List.map_map, List.map_map]
    apply List.map_congr_left
    intro m hm
    rfl
  show (sess.id, jsOrOptStr (some (jsOrStr sess.title "Untitled")) "Untitled",
      jsOrOptStr (some (jsOrStr sess.mode "general")) "general", sess.createdAt, sess.updatedAt,
      ((((sess.messages.filter validForSave).map serializeMessage).filter rawMsgKept).map
        (loadMessage now)).map msgKey)
    = (sess.id, sess.title, sess.mode, sess.createdAt, sess.updatedAt, sess.messages.map msgKey)
  rw [ht, hm2, hmm]

/-- A list with no member carrying the id fails the `Map.has` test. -/
theorem hasId_eq_false (l : List ChatSession) (sid : String)
    (h : ∀ a ∈ l, a.id ≠ sid) : hasId l sid = false := by
  induction l with
  | nil => rfl
  | cons a as ih =>
    have h1 : (a.id == sid) = false := by
      simpa using h a (List.mem_cons_self a as)
    have h2 : hasId as sid = false := ih (fun b hb => h b (List.mem_cons_of_mem a hb))
    show (a.id == sid || hasId as sid) = false
    rw [h1, h2]
    rfl

/-- `Map.set` with a fresh key appends. -/
theorem mapSet_append (l : List ChatSession) (u : ChatSession)
    (h : ∀ a ∈ l, a.id ≠ u.id) : mapSet l u = l ++ [u] := by
  have hf := hasId_eq_false l u.id h
  unfold mapSet
  rw [if_neg (by simp [hf])]

/-- Parsing the serialization of a duplicate-free well-formed session list
appends exactly the reloaded sessions, in order. -/
theorem parse_serialize_go (now : Nat) :
    ∀ (S : List ChatSession) (acc : List ChatSession),
      (∀ sess ∈ S, sess.id ≠ "" ∧ sess.title ≠ "" ∧ sess.mode ≠ "") →
      (∀ sess ∈ S, ∀ m ∈ sess.messages, m.id ≠ "" ∧ m.content ≠ "" ∧
        (m.role = "user" ∨ m.role = "assistant" ∨ m.role = "system")) →
      (S.map ChatSession.id).Nodup →
      (∀ sess ∈ S, ∀ a ∈ acc, a.id ≠ sess.id) →
      ∃ out, (serializeSessions S).foldl
          (fun acc rs => match loadSession now rs with
            | some sess => mapSet acc sess
            | none => acc) acc = acc ++ out ∧
        out.map sessKey = S.map sessKey ∧
        out.map ChatSession.id = S.map ChatSession.id := by
  intro S
  induction S with
  | nil =>
    intro acc _ _ _ _
    exact ⟨[], by simp [serializeSessions], rfl, rfl⟩
  | cons sess S' ih =>
    intro acc hsess hmsg hnodup hfresh
    obtain ⟨h1, h2, h3⟩ := hsess sess (List.mem_cons_self _ _)
    obtain ⟨rs, sess', hser, hload, hid', hkey⟩ :=
      loadSession_serializeSession now sess h1 h2 h3 (hmsg sess (List.mem_cons_self _ _))
    have hserS : serializeSessions (sess :: S') = rs :: serializeSessions S' := by
      simp [serializeSessions, List.filterMap_cons, hser]
    have hmapset : mapSet acc sess' = acc ++ [sess'] := by
      apply mapSet_append
      intro a ha
      rw [hid']
      exact hfresh sess (List.mem_cons_self _ _) a ha
    have hheadid : sess.id ∉ S'.map ChatSession.id := by
      rw [List.map_cons, List.nodup_cons] at hnodup
      exact hnodup.1
    have hfresh' : ∀ t ∈ S', ∀ a ∈ acc ++ [sess'], a.id ≠ t.id := by
      intro t ht a ha
      rcases List.mem_append.mp ha with ha2 | ha2
      · exact hfresh t (List.mem_cons_of_mem _ ht) a ha2
      · rw [List.mem_singleton] at ha2
        subst ha2
        rw [hid']
        intro hcon
        exact hheadid (hcon ▸ List.mem_map_of_mem ChatSession.id ht)
    have hnodup' : (S'.map ChatSession.id).Nodup := by
      rw [List.map_cons, List.nodup_cons] at hnodup
      exact hnodup.2
    obtain ⟨out', hfold', hkeys', hids'⟩ := ih (acc ++ [sess'])
      (fun t ht => hsess t (List.mem_cons_of_mem _ ht))
      (fun t ht => hmsg t (List.mem_cons_of_mem _ ht)) hnodup' hfresh'
    refine ⟨sess' :: out', ?_, ?_, ?_⟩
    · rw [hserS, List.foldl_cons]
      simp only [hload]
      rw [hmapset, hfold']
      simp
    · rw [List.map_cons, List.map_cons, hkeys', hkey]
    · rw [List.map_cons, List.map_cons, hids', hid']

/-- C3 (amended): for a duplicate-free session set whose sessions carry
nonempty ids, titles and modes and whose messages carry nonempty ids and
contents and one of the three roles, persisting then loading yields a session
set with equal ids, titles, modes and timestamps, and message sequences with
the same ids, roles, contents and timestamps in the same order (timestamps
are preserved exactly, hence valid).  Outside these hypotheses the round trip
is lossy: empty-content messages are dropped and empty titles renamed (see
the counterexample), and absent per-message `citations`, `mode` and
`streaming` fields always normalize to `[]`, `"general"` and `false`. -/
theorem save_load_roundtrip (now : Nat) (S : List ChatSession)
    (hnodup : (S.map ChatSession.id).Nodup)
    (hsess : ∀ sess ∈ S, sess.id ≠ "" ∧ sess.title ≠ "" ∧ sess.mode ≠ "")
    (hmsg : ∀ sess ∈ S, ∀ m ∈ sess.messages, m.id ≠ "" ∧ m.content ≠ "" ∧
      (m.role = "user" ∨ m.role = "assistant" ∨ m.role = "system")) :
    (parseSessions now (serializeSessions S)).map sessKey = S.map sessKey := by
  obtain ⟨out, hfold, hkeys, _⟩ := parse_serialize_go now S [] hsess hmsg hnodup
    (fun sess _ a ha => absurd ha (List.not_mem_nil a))
  unfold parseSessions
  rw [hfold]
  simpa using hkeys

/-- Witness for the amended C3 on a concrete two-message session. -/
theorem save_load_roundtrip_witness :
    (parseSessions 7 (serializeSessions
        [⟨"s1", "Title", [⟨"m1", "user", "hello", 3, none, some "general", none⟩,
          ⟨"m2", "assistant", "world", 4, some ["a.com"], none, some false⟩], 1, 2,
          "general"⟩])).map sessKey =
      ([⟨"s1", "Title", [⟨"m1", "user", "hello", 3, none, some "general", none⟩,
        ⟨"m2", "assistant", "world", 4, some ["a.com"], none, some false⟩], 1, 2,
        "general"⟩] : List ChatSession).map sessKey :=
  save_load_roundtrip 7
    [⟨"s1", "Title", [⟨"m1", "user", "hello", 3, none, some "general", none⟩,
      ⟨"m2", "assistant", "world", 4, some ["a.com"], none, some false⟩], 1, 2, "general"⟩]
    (by decide) (by decide) (by decide)

/-- C9 counterexample: the `{ ...session }` returned by `getCurrentSession`
is a shallow copy — its `messages` field is the same array reference as the
stored session's — so pushing a message through the returned copy's array
mutates the store's internal session state, contradicting the claimed deep
defensive copy. -/
theorem spread_copy_mutation_leaks :
    RefModel.getCurrentSession
        ⟨[[⟨"a", "user", "hi", 0, none, none, none⟩]],
         [⟨"s1", "T", 0, 0, 0, "general"⟩], some "s1"⟩
      = some ⟨"s1", "T", 0, 0, 0, "general"⟩ ∧
    (some (⟨"s1", "T", 0, 0, 0, "general"⟩ : RefModel.SessionObj)).map
        RefModel.SessionObj.messagesRef = some 0 ∧
    RefModel.sessionMessages
        (RefModel.pushThrough
          ⟨[[⟨"a", "user", "hi", 0, none, none, none⟩]],
           [⟨"s1", "T", 0, 0, 0, "general"⟩], some "s1"⟩
          0 ⟨"b", "user", "yo", 1, none, none, none⟩)
        ⟨"s1", "T", 0, 0, 0, "general"⟩
      ≠ RefModel.sessionMessages
          ⟨[[⟨"a", "user", "hi", 0, none, none, none⟩]],
           [⟨"s1", "T", 0, 0, 0, "general"⟩], some "s1"⟩
          ⟨"s1", "T", 0, 0, 0, "general"⟩ := by
  decide

namespace RefModel

/-- Members of a stable object insertion. -/
theorem mem_insertObjDesc (x z : SessionObj) (l : List SessionObj) :
    z ∈ insertObjDesc x l ↔ z ∈ l ∨ z = x := by
  induction l with
  | nil => simp [insertObjDesc]
  | cons y ys ih =>
    by_cases h : x.updatedAt ≤ y.updatedAt
    · rw [insertObjDesc, if_pos h]
      rw [List.mem_cons, ih, List.mem_cons]
      tauto
    · rw [insertObjDesc, if_neg h]
      simp only [List.mem_cons]
      tauto

/-- `getAllSessions` returns only stored session objects. -/
theorem getAllSessions_mem (st : Store) : ∀ x ∈ getAllSessions st, x ∈ st.sessions := by
  suffices h : ∀ (l : List SessionObj) (acc : List SessionObj) (x : SessionObj),
      x ∈ l.foldl (fun acc y => insertObjDesc y acc) acc → x ∈ acc ∨ x ∈ l by
    intro x hx
    rcases h st.sessions [] x hx with hc | hc
    · exact absurd hc (List.not_mem_nil x)
    · exact hc
  intro l
  induction l with
  | nil =>
    intro acc x hx
    exact Or.inl hx
  | cons a as ih =>
    intro acc x hx
    rw [List.foldl_cons] at hx
    rcases ih (insertObjDesc a acc) x hx with hc | hc
    · rcases (mem_insertObjDesc a x acc).mp hc with hc2 | rfl
      · exact Or.inl hc2
      · exact Or.inr (List.mem_cons_self _ _)
    · exact Or.inr (List.mem_cons_of_mem _ hc)

end RefModel

/-- C9 (amended): `getSession` (and `getCurrentSession`, which shares the
same `{ ...session }` body) returns a shallow copy of the stored session: a
fresh object with equal top-level fields — rebinding those cannot touch the
store — but sharing the `messages` array reference, so a push through the
returned reference is observed by the internal session; `getAllSessions`
returns the stored session objects themselves with no copy at all. -/
theorem shallow_copy_shares_messages (st : RefModel.Store) (sid : String)
    (copy : RefModel.SessionObj)
    (hget : RefModel.getSession st sid = some copy) :
    (∃ internal, RefModel.findObj st.sessions sid = some internal ∧
      internal ∈ st.sessions ∧
      copy = RefModel.spreadCopy internal ∧
      copy.messagesRef = internal.messagesRef ∧
      (copy.messagesRef < st.heap.length → ∀ m,
        RefModel.sessionMessages (RefModel.pushThrough st copy.messagesRef m) internal
          = RefModel.sessionMessages st internal ++ [m])) ∧
    ∀ x ∈ RefModel.getAllSessions st, x ∈ st.sessions := by
  constructor
  · obtain ⟨internal, hfind, hcopy⟩ := Option.map_eq_some'.mp hget
    refine ⟨internal, hfind, List.mem_of_find?_eq_some hfind, hcopy.symm, ?_, ?_⟩
    · rw [← hcopy]
      rfl
    · intro hlt m
      have href : copy.messagesRef = internal.messagesRef := by
        rw [← hcopy]
        rfl
      rw [href] at hlt ⊢
      show (st.heap.set internal.messagesRef
          (st.heap.getD internal.messagesRef [] ++ [m])).getD internal.messagesRef []
        = st.heap.getD internal.messagesRef [] ++ [m]
      rw [List.getD_eq_getElem?_getD, List.getElem?_set_self hlt]
      rfl
  · exact RefModel.getAllSessions_mem st

/-- Witness for the amended C9 on a concrete one-session store. -/
theorem shallow_copy_shares_messages_witness :
    RefModel.getSession
        ⟨[[⟨"a", "user", "hi", 0, none, none, none⟩]],
         [⟨"s1", "T", 0, 0, 0, "general"⟩], some "s1"⟩ "s1"
      = some (RefModel.spreadCopy ⟨"s1", "T", 0, 0, 0, "general"⟩) ∧
    ((∃ internal, RefModel.findObj
        ([⟨"s1", "T", 0, 0, 0, "general"⟩] : List RefModel.SessionObj) "s1"
          = some internal ∧
      internal ∈ ([⟨"s1", "T", 0, 0, 0, "general"⟩] : List RefModel.SessionObj) ∧
      RefModel.spreadCopy ⟨"s1", "T", 0, 0, 0, "general"⟩ = RefModel.spreadCopy internal ∧
      (RefModel.spreadCopy (⟨"s1", "T", 0, 0, 0, "general"⟩ : RefModel.SessionObj)).messagesRef
        = internal.messagesRef ∧
      ((RefModel.spreadCopy (⟨"s1", "T", 0, 0, 0, "general"⟩ : RefModel.SessionObj)).messagesRef
          < ([[⟨"a", "user", "hi", 0, none, none, none⟩]] : List (List ChatMessage)).length →
        ∀ m, RefModel.sessionMessages
            (RefModel.pushThrough
              ⟨[[⟨"a", "user", "hi", 0, none, none, none⟩]],
               [⟨"s1", "T", 0, 0, 0, "general"⟩], some "s1"⟩
              (RefModel.spreadCopy (⟨"s1", "T", 0, 0, 0, "general"⟩ :
                RefModel.SessionObj)).messagesRef m) internal
          = RefModel.sessionMessages
              ⟨[[⟨"a", "user", "hi", 0, none, none, none⟩]],
               [⟨"s1", "T", 0, 0, 0, "general"⟩], some "s1"⟩ internal ++ [m])) ∧
      ∀ x ∈ RefModel.getAllSessions
          ⟨[[⟨"a", "user", "hi", 0, none, none, none⟩]],
           [⟨"s1", "T", 0, 0, 0, "general"⟩], some "s1"⟩,
        x ∈ ([⟨"s1", "T", 0, 0, 0, "general"⟩] : List RefModel.SessionObj)) := by
  refine ⟨by decide, ?_⟩
  exact shallow_copy_shares_messages
    ⟨[[⟨"a", "user", "hi", 0, none, none, none⟩]],
     [⟨"s1", "T", 0, 0, 0, "general"⟩], some "s1"⟩ "s1"
    (RefModel.spreadCopy ⟨"s1", "T", 0, 0, 0, "general"⟩) (by decide)

/-- A quiescent message list has no streaming message at all. -/
theorem quiescent_count {msgs : List ChatMessage} (h : Quiescent msgs) :
    streamingCount msgs = 0 := by
  unfold streamingCount
  rw [List.countP_eq_zero]
  intro m hm
  simpa using h m hm

/-- Members of a `Map.set` result. -/
theorem mem_mapSet {l : List ChatSession} {u x : ChatSession}
    (h : x ∈ mapSet l u) : x ∈ l ∨ x = u := by
  unfold mapSet at h
  by_cases hc : hasId l u.id = true
  · rw [if_pos hc] at h
    obtain ⟨y, hy, hxy⟩ := List.mem_map.mp h
    by_cases hyid : (y.id == u.id) = true
    · rw [if_pos hyid] at hxy
      exact Or.inr hxy.symm
    · rw [if_neg hyid] at hxy
      exact Or.inl (hxy ▸ hy)
  · rw [if_neg hc] at h
    rcases List.mem_append.mp h with h2 | h2
    · exact Or.inl h2
    · rw [List.mem_singleton] at h2
      exact Or.inr h2

/-- Serialization keeps quiescence: a stored blob written from quiescent
sessions has no stored `streaming: true` flag. -/
theorem serialize_rawQuiescent {l : List ChatSession}
    (h : ∀ sess ∈ l, Quiescent sess.messages) :
    ∀ rs ∈ serializeSessions l, RawQuiescent rs := by
  intro rs hrs
  obtain ⟨sess, hsess, hser⟩ := List.mem_filterMap.mp hrs
  unfold serializeSession at hser
  by_cases hid : sess.id = ""
  · rw [if_pos hid] at hser
    exact absurd hser (by simp)
  · rw [if_neg hid] at hser
    injection hser with hser2
    subst hser2
    intro rm hrm
    simp only [Option.getD_some] at hrm
    obtain ⟨m, hm, rfl⟩ := List.mem_map.mp hrm
    have hmem : m ∈ sess.messages := List.mem_of_mem_filter hm
    have := h sess hsess m hmem
    simpa [serializeMessage] using this

/-- `saveSessions` preserves the boundary invariant. -/
theorem saveSessions_BInv {s : ManagerState}
    (h : ∀ sess ∈ s.sessions, Quiescent sess.messages) :
    BInv (saveSessions s) := by
  refine ⟨h, ?_⟩
  exact serialize_rawQuiescent h

/-- Sessions reconstructed by the loader from a quiescent blob are quiescent
(the loader coerces an absent flag to `false`). -/
theorem parse_quiescent {raws : List RawSession} (now : Nat)
    (h : ∀ rs ∈ raws, RawQuiescent rs) :
    ∀ sess ∈ parseSessions now raws, Quiescent sess.messages := by
  suffices hgo : ∀ (rl : List RawSession) (acc : List ChatSession),
      (∀ rs ∈ rl, RawQuiescent rs) →
      (∀ sess ∈ acc, Quiescent sess.messages) →
      ∀ sess ∈ rl.foldl
        (fun acc rs => match loadSession now rs with
          | some sess => mapSet acc sess
          | none => acc) acc, Quiescent sess.messages by
    intro sess hs
    exact hgo raws [] h (by simp) sess hs
  intro rl
  induction rl with
  | nil =>
    intro acc _ hacc sess hs
    exact hacc sess hs
  | cons rs rl' ih =>
    intro acc hq hacc sess hs
    rw [List.foldl_cons] at hs
    cases hload : loadSession now rs with
    | none =>
      rw [hload] at hs
      exact ih acc (fun r hr => hq r (List.mem_cons_of_mem _ hr)) hacc sess hs
    | some loaded =>
      rw [hload] at hs
      refine ih (mapSet acc loaded) (fun r hr => hq r (List.mem_cons_of_mem _ hr)) ?_ sess hs
      intro t ht
      rcases mem_mapSet ht with ht2 | rfl
      · exact hacc t ht2
      · unfold loadSession at hload
        by_cases htr : truthyStr rs.id = true
        · rw [if_pos htr] at hload
          injection hload with hload2
          subst hload2
          intro m hm
          obtain ⟨rm, hrm, rfl⟩ := List.mem_map.mp hm
          have hrmem : rm ∈ rs.messages.getD [] := List.mem_of_mem_filter hrm
          have hrq := hq rs (List.mem_cons_self _ _) rm hrmem
          unfold loadMessage
          cases hstream : rm.streaming with
          | none => simp
          | some b =>
            cases b with
            | false => simp
            | true => exact absurd hstream hrq
        · rw [if_neg htr] at hload
          exact absurd hload (by simp)

/-- Appending the user message keeps the session quiescent. -/
theorem sess2Of_quiescent (sess : ChatSession) (uid : String) (now : Nat)
    (content mode : String) (h : Quiescent sess.messages) :
    Quiescent (sess2Of sess uid now content mode).messages := by
  rw [sess2Of_messages]
  intro m hm
  rcases List.mem_append.mp hm with hm2 | hm2
  · exact h m hm2
  · rw [List.mem_singleton] at hm2
    subst hm2
    simp [userMessageOf]

/-- From a quiescent session, every placeholder snapshot has exactly one
streaming message. -/
theorem phObsOf_count_quiescent (sess : ChatSession) (uid pid : String) (now : Nat)
    (content mode c : String) (h : Quiescent sess.messages) :
    streamingCount (phObsOf sess uid pid now content mode c).messages = 1 := by
  show streamingCount ((sess2Of sess uid now content mode).messages
    ++ [placeholderMsg pid now c]) = 1
  rw [streamingCount_append, quiescent_count (sess2Of_quiescent sess uid now content mode h)]
  simp [streamingCount, placeholderMsg]

/-- The finalized session is quiescent again. -/
theorem okSessionOf_quiescent (sess : ChatSession) (uid pid : String) (now now2 : Nat)
    (content mode : String) (chunks : List Chunk) (h : Quiescent sess.messages) :
    Quiescent (okSessionOf sess uid pid now now2 content mode chunks).messages := by
  show Quiescent ((sess2Of sess uid now content mode).messages
    ++ [finalAssistantOf pid now chunks])
  intro m hm
  rcases List.mem_append.mp hm with hm2 | hm2
  · exact sess2Of_quiescent sess uid now content mode h m hm2
  · rw [List.mem_singleton] at hm2
    subst hm2
    simp [finalAssistantOf]

/-- The error-path session is quiescent: the only streaming message, the
placeholder, is removed by the id filter. -/
theorem errSessionOf_quiescent (sess : ChatSession) (uid pid emid : String) (now : Nat)
    (content mode : String) (chunks : List Chunk) (e : String)
    (h : Quiescent sess.messages) :
    Quiescent (errSessionOf sess uid pid emid now content mode chunks e).messages := by
  show Quiescent ((((sess2Of sess uid now content mode).messages
      ++ [placeholderMsg pid now (streamFold chunks "" []).fullContent]).filter
        (fun m => m.id != pid)) ++ [errorAssistantOf emid now e])
  intro m hm
  rcases List.mem_append.mp hm with hm2 | hm2
  · have hmf := List.mem_filter.mp hm2
    rcases List.mem_append.mp hmf.1 with hm3 | hm3
    · exact sess2Of_quiescent sess uid now content mode h m hm3
    · rw [List.mem_singleton] at hm3
      subst hm3
      have := hmf.2
      simp [placeholderMsg] at this
  · rw [List.mem_singleton] at hm2
    subst hm2
    simp [errorAssistantOf]

/-- `createNewSession` preserves the boundary invariant and fires only
quiescent sessions. -/
theorem createNewSession_BInv (sid msgId : String) (title : Option String) (mode : String)
    (now : Nat) (s : ManagerState) (h : BInv s) :
    BInv (createNewSession sid msgId title mode now s).1 ∧
    ∀ o ∈ (createNewSession sid msgId title mode now s).2, ObsOK o := by
  rw [createNewSession_eq]
  have hq1 : ∀ sess ∈ mapSet s.sessions (newSessionOf sid msgId title mode now),
      Quiescent sess.messages := by
    intro sess hs
    rcases mem_mapSet hs with h2 | rfl
    · exact h.1 sess h2
    · exact newSessionOf_quiescent sid msgId title mode now
  constructor
  · exact saveSessions_BInv hq1
  · intro o ho
    rw [List.mem_singleton] at ho
    subst ho
    intro t ht
    injection ht with ht2
    subst ht2
    rw [quiescent_count (newSessionOf_quiescent sid msgId title mode now)]
    omega

/-- `sendMessage` from an existing current session preserves the boundary
invariant, and every fired snapshot has at most one streaming message. -/
theorem sendMessage_found_BInv (s : ManagerState) (cid : String) (sess : ChatSession)
    (uid pid emid nsid smid : String) (now now2 : Nat) (content mode : String)
    (chunks : List Chunk) (err : Option String)
    (hcur : s.currentSessionId = some cid)
    (hfind : findS s.sessions cid = some sess)
    (hB : BInv s) :
    BInv (sendMessage uid pid emid nsid smid now now2 content mode chunks err s).state ∧
    ∀ o ∈ (sendMessage uid pid emid nsid smid now now2 content mode chunks err s).fired,
      ObsOK o := by
  have hq : Quiescent sess.messages := hB.1 sess (findS_mem hfind)
  cases err with
  | none =>
    rw [sendMessage_ok_eq s cid sess uid pid emid nsid smid now now2 content mode chunks
      hcur hfind]
    constructor
    · apply saveSessions_BInv
      intro t ht
      rcases mem_mapSet ht with h2 | rfl
      · exact hB.1 t h2
      · exact okSessionOf_quiescent sess uid pid now now2 content mode chunks hq
    · intro o ho
      rcases List.mem_append.mp ho with ho2 | ho2
      · rcases List.mem_append.mp ho2 with ho3 | ho3
        · rw [List.mem_singleton] at ho3
          subst ho3
          intro t ht
          injection ht with ht2
          subst ht2
          rw [phObsOf_count_quiescent sess uid pid now content mode "" hq]
        · obtain ⟨c, _, rfl⟩ := List.mem_map.mp ho3
          intro t ht
          injection ht with ht2
          subst ht2
          rw [phObsOf_count_quiescent sess uid pid now content mode c hq]
      · rw [List.mem_singleton] at ho2
        subst ho2
        intro t ht
        injection ht with ht2
        subst ht2
        rw [quiescent_count (okSessionOf_quiescent sess uid pid now now2 content mode chunks hq)]
        omega
  | some e =>
    rw [sendMessage_err_eq s cid sess uid pid emid nsid smid now now2 content mode chunks e
      hcur hfind]
    constructor
    · refine ⟨?_, hB.2⟩
      intro t ht
      rcases mem_mapSet ht with h2 | rfl
      · exact hB.1 t h2
      · exact errSessionOf_quiescent sess uid pid emid now content mode chunks e hq
    · intro o ho
      rcases List.mem_append.mp ho with ho2 | ho2
      · rcases List.mem_append.mp ho2 with ho3 | ho3
        · rw [List.mem_singleton] at ho3
          subst ho3
          intro t ht
          injection ht with ht2
          subst ht2
          rw [phObsOf_count_quiescent sess uid pid now content mode "" hq]
        · obtain ⟨c, _, rfl⟩ := List.mem_map.mp ho3
          intro t ht
          injection ht with ht2
          subst ht2
          rw [phObsOf_count_quiescent sess uid pid now content mode c hq]
      · rw [List.mem_singleton] at ho2
        subst ho2
        intro t ht
        injection ht with ht2
        subst ht2
        rw [quiescent_count
          (errSessionOf_quiescent sess uid pid emid now content mode chunks e hq)]
        omega

/-- The session returned by `getCurrentSession` is stored. -/
theorem getCurrentSession_mem {s : ManagerState} {c : ChatSession}
    (h : getCurrentSession s = some c) : c ∈ s.sessions := by
  unfold getCurrentSession at h
  cases hc : s.currentSessionId with
  | none =>
    rw [hc] at h
    exact absurd h (by simp)
  | some cid =>
    rw [hc] at h
    exact findS_mem h

/-- `sendMessage` (all cases) preserves the boundary invariant and fires
only admissible snapshots. -/
theorem sendMessage_BInv (s : ManagerState) (uid pid emid nsid smid : String)
    (now now2 : Nat) (content mode : String) (chunks : List Chunk) (err : Option String)
    (h : BInv s) :
    BInv (sendMessage uid pid emid nsid smid now now2 content mode chunks err s).state ∧
    ∀ o ∈ (sendMessage uid pid emid nsid smid now now2 content mode chunks err s).fired,
      ObsOK o := by
  cases hcur : s.currentSessionId with
  | some cid =>
    cases hfind : findS s.sessions cid with
    | some sess =>
      exact sendMessage_found_BInv s cid sess uid pid emid nsid smid now now2 content mode
        chunks err hcur hfind h
    | none =>
      rw [sendMessage_stale_eq s cid uid pid emid nsid smid now now2 content mode chunks err
        hcur hfind]
      exact ⟨h, by simp⟩
  | none =>
    rw [sendMessage_none_eq s uid pid emid nsid smid now now2 content mode chunks err hcur]
    have hc := createNewSession_BInv nsid smid (some "New Chat") mode now s h
    have hc1 : (createNewSession nsid smid (some "New Chat") mode now s).1.currentSessionId
        = some nsid := by
      rw [createNewSession_eq]
      rfl
    have hfind' : findS (createNewSession nsid smid (some "New Chat") mode now s).1.sessions
        nsid = some (newSessionOf nsid smid (some "New Chat") mode now) := by
      rw [createNewSession_eq]
      have h2 := findS_mapSet_self s.sessions (newSessionOf nsid smid (some "New Chat") mode now)
      rw [newSessionOf_id] at h2
      exact h2
    have hinner := sendMessage_found_BInv (createNewSession nsid smid (some "New Chat") mode
      now s).1 nsid (newSessionOf nsid smid (some "New Chat") mode now) uid pid emid nsid smid
      now now2 content mode chunks err hc1 hfind' hc.1
    constructor
    · exact hinner.1
    · intro o ho
      rcases List.mem_append.mp ho with ho2 | ho2
      · exact hc.2 o ho2
      · exact hinner.2 o ho2

/-- `switchToSession` preserves the boundary invariant and fires only
admissible snapshots. -/
theorem switchToSession_BInv (fb sid : String) (s : ManagerState) (h : BInv s) :
    BInv (switchToSession fb sid s).1 ∧ ∀ o ∈ (switchToSession fb sid s).2.1, ObsOK o := by
  by_cases hs : sid = ""
  · simp only [switchToSession, if_pos hs]
    exact ⟨h, by simp⟩
  · cases hfind : findS s.sessions sid with
    | none =>
      simp only [switchToSession, if_neg hs, hfind]
      exact ⟨h, by simp⟩
    | some sess =>
      simp only [switchToSession, if_neg hs, hfind]
      constructor
      · exact ⟨h.1, h.2⟩
      · intro o ho
        rw [List.mem_singleton] at ho
        subst ho
        intro t ht
        injection ht with ht2
        subst ht2
        show streamingCount sess.messages ≤ 1
        rw [quiescent_count (h.1 sess (findS_mem hfind))]
        omega

/-- `deleteSession` preserves the boundary invariant and fires only
admissible snapshots. -/
theorem deleteSession_BInv (sid : String) (s : ManagerState) (h : BInv s) :
    BInv (deleteSession sid s).1 ∧ ∀ o ∈ (deleteSession sid s).2, ObsOK o := by
  unfold deleteSession
  by_cases hg : (sid = "" || (findS s.sessions sid).isNone) = true
  · rw [if_pos hg]
    exact ⟨h, by simp⟩
  · rw [if_neg hg]
    dsimp only
    by_cases hcur : s.currentSessionId = some sid
    · rw [if_pos hcur]
      constructor
      · apply saveSessions_BInv
        intro t ht
        exact h.1 t (List.mem_of_mem_filter ht)
      · intro o ho
        rw [List.mem_singleton] at ho
        subst ho
        intro t ht
        split at ht
        next c hgc =>
          injection ht with ht2
          subst ht2
          have hmem := getCurrentSession_mem hgc
          have hqt : Quiescent c.messages := h.1 c (List.mem_of_mem_filter hmem)
          rw [quiescent_count hqt]
          omega
        next hgc => exact absurd ht (by simp)
    · rw [if_neg hcur]
      constructor
      · apply saveSessions_BInv
        intro t ht
        exact h.1 t (List.mem_of_mem_filter ht)
      · intro o ho
        rw [List.mem_singleton] at ho
        subst ho
        intro t ht
        split at ht
        next c hgc =>
          injection ht with ht2
          subst ht2
          have hmem := getCurrentSession_mem hgc
          have hqt : Quiescent c.messages := h.1 c (List.mem_of_mem_filter hmem)
          rw [quiescent_count hqt]
          omega
        next hgc => exact absurd ht (by simp)

/-- `clearAllSessions` preserves the boundary invariant and fires `null`. -/
theorem clearAllSessions_BInv (s : ManagerState) (h : BInv s) :
    BInv (clearAllSessions s).1 ∧ ∀ o ∈ (clearAllSessions s).2, ObsOK o := by
  constructor
  · apply saveSessions_BInv
    intro t ht
    exact absurd ht (List.not_mem_nil t)
  · intro o ho
    have hobs : (clearAllSessions s).2 = [none] := rfl
    rw [hobs, List.mem_singleton] at ho
    subst ho
    intro t ht
    exact absurd ht (by simp)

/-- `loadSessions` preserves the boundary invariant (and fires nothing). -/
theorem loadSessionsOp_BInv (now : Nat) (s : ManagerState) (h : BInv s) :
    BInv (loadSessionsOp now s) := by
  have hq := parse_quiescent now h.2
  unfold loadSessionsOp
  dsimp only
  split
  · exact ⟨hq, h.2⟩
  · exact ⟨hq, h.2⟩

/-- Every public operation preserves the boundary invariant, and every
notification it fires carries at most one streaming message per session. -/
theorem stepRun_preserves (op : Op) (s : ManagerState) (h : BInv s) :
    BInv (stepRun op s).1 ∧ ∀ o ∈ (stepRun op s).2, ObsOK o := by
  cases op with
  | createNewSession sid msgId title mode now =>
    exact createNewSession_BInv sid msgId title mode now s h
  | sendMessage uid pid emid nsid smid now now2 content mode chunks err =>
    exact sendMessage_BInv s uid pid emid nsid smid now now2 content mode chunks err h
  | switchToSession fb sid => exact switchToSession_BInv fb sid s h
  | deleteSession sid => exact deleteSession_BInv sid s h
  | clearAllSessions => exact clearAllSessions_BInv s h
  | load now => exact ⟨loadSessionsOp_BInv now s h, fun o ho => absurd ho (List.not_mem_nil o)⟩

/-- Every reachable state satisfies the boundary invariant. -/
theorem reachable_BInv (s : ManagerState) (h : Reachable s) : BInv s := by
  induction h with
  | init => exact ⟨by simp [initialState], by simp [initialState]⟩
  | next op hr ih => exact (stepRun_preserves op _ ih).1

/-- C2: in every state reachable by the public operations every session has
at most one `streaming = true` message, and applying any further operation —
`createNewSession`, `sendMessage` with its per-delta notifications,
`switchToSession`, `deleteSession`, `clearAllSessions` or `loadSessions` —
keeps the bound both in every fired snapshot and in the resulting state. -/
theorem at_most_one_streaming (s : ManagerState) (h : Reachable s) :
    (∀ sess ∈ s.sessions, streamingCount sess.messages ≤ 1) ∧
    ∀ op : Op,
      (∀ o ∈ (stepRun op s).2, ObsOK o) ∧
      ∀ sess ∈ (stepRun op s).1.sessions, streamingCount sess.messages ≤ 1 := by
  have hB := reachable_BInv s h
  constructor
  · intro sess hs
    rw [quiescent_count (hB.1 sess hs)]
    omega
  · intro op
    have hp := stepRun_preserves op s hB
    refine ⟨hp.2, ?_⟩
    intro sess hs
    rw [quiescent_count (hp.1.1 sess hs)]
    omega

/-- Witness for C2 at the initial (trivially reachable) state. -/
theorem at_most_one_streaming_witness :
    Reachable initialState ∧
    (∀ sess ∈ initialState.sessions, streamingCount sess.messages ≤ 1) ∧
    ∀ op : Op,
      (∀ o ∈ (stepRun op initialState).2, ObsOK o) ∧
      ∀ sess ∈ (stepRun op initialState).1.sessions, streamingCount sess.messages ≤ 1 :=
  ⟨Reachable.init, at_most_one_streaming initialState Reachable.init⟩
